import Mathlib

/-!
Verification of the import-map importer (deno-import-map-importer).

Source strings (JavaScript strings, i.e. sequences of code points) are
modelled as `List Char`, written `Str`.  Platform primitives that the
repository merely calls (the WHATWG `URL` resolver, `crypto.subtle`'s
SHA-256 digest, `@deno/graph`'s structural parser, the filesystem and the
dynamic module loader) are passed in as explicit parameters; everything the
repository itself implements is translated function by function from the
TypeScript source.
-/

set_option maxRecDepth 10000

/-- JavaScript strings modelled as sequences of characters. -/
abbrev Str := List Char

/-- `s.startsWith p` of JavaScript, on our character-list strings. -/
def jsStartsWith (s p : Str) : Bool := p.isPrefixOf s

/-- `s.slice(n)` of JavaScript (drop the first `n` characters). -/
def jsSlice (s : Str) (n : Nat) : Str := s.drop n

/-- First-match lookup in an association list, mirroring `Map.get` /
iteration over `Object.entries` where the earliest binding wins. -/
def assocFind (k : Str) : List (Str × Str) → Option Str
  | [] => none
  | (k', v) :: rest => if k = k' then some v else assocFind k rest

/-! ## Specifier resolver (`ImportMapImporter.#createOptimizedReplacer`)

Translated from `src/unnamed/part_015` lines 339-365 (identical logic at
`src/import_map_importer.ts` lines 289-315): the replacer first walks the
pre-processed global `imports` entries, then the scope entries. -/

/-- One scan over a list of `(key, value)` import entries: the source's
`if (specifier === key || specifier.startsWith(key + "/")) return value + specifier.slice(key.length)`. -/
def findImportEntry (entries : List (Str × Str)) (specifier : Str) : Option Str :=
  match entries with
  | [] => none
  | (key, value) :: rest =>
    if specifier = key || jsStartsWith specifier (key ++ ['/']) then
      some (value ++ jsSlice specifier key.length)
    else
      findImportEntry rest specifier

/-- The scope walk of `#createOptimizedReplacer`: for each scope whose key is
a prefix of the importing module's URL, try its entries; otherwise (or when no
entry of the scope matches) continue with the remaining scopes. -/
def findScopeEntry (scopes : List (Str × List (Str × Str)))
    (urlString specifier : Str) : Option Str :=
  match scopes with
  | [] => none
  | (scope, entries) :: rest =>
    if jsStartsWith urlString scope then
      match findImportEntry entries specifier with
      | some r => some r
      | none => findScopeEntry rest urlString specifier
    else
      findScopeEntry rest urlString specifier

/-- The replacer returned by `#createOptimizedReplacer(urlString)`: global
`imports` entries are consulted first and win; scopes are consulted only when
no global entry matched; an unmatched specifier is returned unchanged. -/
def applyImportMapToSpecifier (importEntries : List (Str × Str))
    (scopeEntries : List (Str × List (Str × Str)))
    (urlString specifier : Str) : Str :=
  match findImportEntry importEntries specifier with
  | some r => r
  | none =>
    match findScopeEntry scopeEntries urlString specifier with
    | some r => r
    | none => specifier

/-! Concrete data for the C1 failing input. -/

/-- Global imports of the C1 failing input: `lodash` maps to a global target. -/
def c1Imports : List (Str × Str) :=
  [("lodash".toList, "https://global/x".toList)]

/-- Scopes of the C1 failing input: the scope `file:///app/` remaps `lodash`. -/
def c1Scopes : List (Str × List (Str × Str)) :=
  [("file:///app/".toList, [("lodash".toList, "https://scoped/y".toList)])]

/-- C1: the importing module `file:///app/main.ts` lies inside the scope
`file:///app/`, and both the scope and the global imports map the specifier
`lodash`; the code nevertheless returns the global target, because
`#createOptimizedReplacer` consults the global `imports` entries first and
returns on the first hit.  The claimed scope precedence fails; the claim is
right about what a scope that does not match contributes (nothing). -/
theorem C1_scope_precedence_failing_input :
    applyImportMapToSpecifier c1Imports c1Scopes
      "file:///app/main.ts".toList "lodash".toList = "https://global/x".toList ∧
    "https://global/x".toList ≠ "https://scoped/y".toList := by
  constructor
  · rfl
  · decide

/-! ## Text replacement machinery (`src/replace_imports.ts`, `src/unnamed/part_009`)

`Replacement` mirrors the `Replacement` record of `find_missing_imports.ts`;
`Dependency` mirrors the dependency items `@deno/graph` hands to
`collectReplacements` (specifier plus optional code/type spans).  The
structural parser itself is an external collaborator, so dependencies arrive
as data. -/

/-- A text span as reported by the structural parser (zero-based line and
character positions; the span covers the quoted specifier). -/
structure Span where
  startLine : Nat
  startChar : Nat
  endLine : Nat
  endChar : Nat
deriving DecidableEq

/-- A pending specifier replacement (`find_missing_imports.ts`). -/
structure Replacement where
  startLine : Nat
  startChar : Nat
  endLine : Nat
  endChar : Nat
  specifier : Str
  newSpecifier : Str
deriving DecidableEq

/-- A dependency of the module as reported by the structural parser:
its specifier and the optional spans of its code and type import. -/
structure Dependency where
  specifier : Str
  code : Option Span
  type : Option Span

/-- Lowercase an ASCII letter (for the case-insensitive remote test). -/
def toLowerAscii (c : Char) : Char :=
  if 'A' ≤ c ∧ c ≤ 'Z' then Char.ofNat (c.toNat + 32) else c

/-- `isRemoteSpecifier` of `replace_imports.ts`:
the test `/^(https?:|data:|npm:|jsr:)/i`. -/
def isRemoteSpecifier (specifier : Str) : Bool :=
  let low := specifier.map toLowerAscii
  jsStartsWith low "http:".toList || jsStartsWith low "https:".toList ||
  jsStartsWith low "data:".toList || jsStartsWith low "npm:".toList ||
  jsStartsWith low "jsr:".toList

/-- `createReplacement` of `replace_imports.ts`. -/
def createReplacement (span : Span) (specifier newSpecifier : Str) : Replacement :=
  { startLine := span.startLine
    startChar := span.startChar
    endLine := span.endLine
    endChar := span.endChar
    specifier := specifier
    newSpecifier := newSpecifier }

/-- `collectReplacements` of `replace_imports.ts`: walk the dependencies,
skip remote specifiers and specifiers the replacer maps to themselves, and
record one replacement per code span and per type span; also build the
`specifierReplacements` map consumed by the gap-fill pass. -/
def collectReplacements (dependencies : List Dependency)
    (replacer : Str → Str) : List Replacement × List (Str × Str) :=
  match dependencies with
  | [] => ([], [])
  | dependency :: rest =>
    let (restRepls, restMap) := collectReplacements rest replacer
    if isRemoteSpecifier dependency.specifier then
      (restRepls, restMap)
    else
      let newSpecifier := replacer dependency.specifier
      if dependency.specifier = newSpecifier then
        (restRepls, restMap)
      else
        let codeRepls :=
          match dependency.code with
          | some span => [createReplacement span dependency.specifier newSpecifier]
          | none => []
        let typeRepls :=
          match dependency.type with
          | some span => [createReplacement span dependency.specifier newSpecifier]
          | none => []
        (codeRepls ++ typeRepls ++ restRepls,
         (dependency.specifier, newSpecifier) :: restMap)

/-- `sourceCode.split("\n")` of JavaScript. -/
def splitLines : Str → List Str
  | [] => [[]]
  | c :: rest =>
    if c = '\n' then [] :: splitLines rest
    else
      match splitLines rest with
      | l :: ls => (c :: l) :: ls
      | [] => [[c]]

/-- `lines.join("\n")` of JavaScript. -/
def joinLines : List Str → Str
  | [] => []
  | [l] => l
  | l :: ls => l ++ '\n' :: joinLines ls

/-- The comparator of `applyReplacements` (descending `(startLine, startChar)`
order), read as a non-strict comes-before test so that insertion keeps the
original order of tied elements exactly like the stable `Array.sort`. -/
def replBefore (a b : Replacement) : Bool :=
  if a.startLine ≠ b.startLine then b.startLine < a.startLine
  else b.startChar ≤ a.startChar

/-- Insert one replacement into an already sorted list. -/
def insertRepl (x : Replacement) : List Replacement → List Replacement
  | [] => [x]
  | y :: ys => if replBefore x y then x :: y :: ys else y :: insertRepl x ys

/-- The `replacements.sort(...)` call of `applyReplacements`. -/
def sortRepls : List Replacement → List Replacement
  | [] => []
  | x :: xs => insertRepl x (sortRepls xs)

/-- One line surgery step of `applyReplacements`:
`line.substring(0, startChar) + "\"" + newSpecifier + "\"" + line.substring(endChar)`. -/
def applyOneReplacement (lines : List Str) (r : Replacement) : List Str :=
  let line := lines.getD r.startLine []
  lines.set r.startLine
    (line.take r.startChar ++ '"' :: r.newSpecifier ++ '"' :: line.drop r.endChar)

/-- `applyReplacements` of `replace_imports.ts`: split into lines, sort the
replacements in reverse document order, rewrite each span with the new
specifier in double quotes, and join the lines back. -/
def applyReplacements (sourceCode : Str) (replacements : List Replacement) : Str :=
  joinLines ((sortRepls replacements).foldl applyOneReplacement (splitLines sourceCode))

/-! ## A backtracking matcher for the JavaScript regular expressions

The repository's gap-fill pass and its cheap import detectors are plain
JavaScript regexes.  They are modelled by a small pattern language with the
same backtracking search order as the JavaScript engine (alternatives in
written order, greedy repetition tried longest first).  `matchLens` returns
the candidate match lengths at the head of the input in backtracking
priority order; the fuel argument bounds the recursion depth and is always
instantiated generously (each `star` iteration consumes at least one
character, so `matchFuel` suffices). -/

/-- Pattern syntax: literal, single-character class, sequence, ordered
alternative, greedy repetition. -/
inductive Pat : Type where
  | lit : Str → Pat
  | one : (Char → Bool) → Pat
  | seq : Pat → Pat → Pat
  | alt : Pat → Pat → Pat
  | star : Pat → Pat

/-- Structural size of a pattern (used only to compute adequate fuel). -/
def patSize : Pat → Nat
  | .lit _ => 1
  | .one _ => 1
  | .seq p q => patSize p + patSize q + 1
  | .alt p q => patSize p + patSize q + 1
  | .star p => patSize p + 1

/-- Candidate match lengths of `pat` at the head of `s`, in backtracking
priority order (first element is the one the JavaScript engine commits to
when the continuation succeeds). -/
def matchLens : Nat → Pat → Str → List Nat
  | 0, _, _ => []
  | fuel + 1, pat, s =>
    match pat with
    | .lit l => if l.isPrefixOf s then [l.length] else []
    | .one f =>
      match s with
      | [] => []
      | c :: _ => if f c then [1] else []
    | .seq p q =>
      (matchLens fuel p s).flatMap fun n =>
        (matchLens fuel q (s.drop n)).map (n + ·)
    | .alt p q => matchLens fuel p s ++ matchLens fuel q s
    | .star p =>
      (((matchLens fuel p s).filter (fun n => 0 < n)).flatMap fun n =>
        (matchLens fuel (.star p) (s.drop n)).map (n + ·)) ++ [0]

/-- Fuel that is ample for `matchLens` (recursion depth is bounded by the
pattern size per repetition round and every round consumes a character). -/
def matchFuel (p : Pat) (s : Str) : Nat := (s.length + 1) * (patSize p + 2)

/-- Shorthand: `p?` (greedy option). -/
def Pat.opt (p : Pat) : Pat := .alt p (.lit [])

/-- Shorthand: `p+` (greedy one-or-more). -/
def Pat.plus (p : Pat) : Pat := .seq p (.star p)

/-- The character class `\s` of JavaScript (whitespace; the rarely used
non-ASCII space code points are included for faithfulness where cheap). -/
def wsChar (c : Char) : Bool :=
  c = ' ' || c = '\t' || c = '\n' || c = '\r' ||
  c.toNat = 11 || c.toNat = 12 || c.toNat = 160 || c.toNat = 65279

/-- The character class `\w` of JavaScript. -/
def wordChar (c : Char) : Bool :=
  ('a' ≤ c && c ≤ 'z') || ('A' ≤ c && c ≤ 'Z') ||
  ('0' ≤ c && c ≤ '9') || c = '_'

/-- The character class `[\w$]` used by the import/export clause regex. -/
def wordDollarChar (c : Char) : Bool := wordChar c || c = '$'

/-- Left brace character (written by code point to keep strings plain). -/
def lbrace : Char := Char.ofNat 123

/-- Right brace character. -/
def rbrace : Char := Char.ofNat 125

/-- The clause alternatives `\{[^}]*\}|\*|[\w$]+` of
`createImportExportRegex` (`find_missing_imports.ts`). -/
def clausePat : Pat :=
  .alt (.seq (.one (· = lbrace)) (.seq (.star (.one (· ≠ rbrace))) (.one (· = rbrace))))
    (.alt (.lit ['*']) (Pat.plus (.one wordDollarChar)))

/-- The part of `createImportExportRegex` before the quoted specifier:
`(?:import|export)\s+(?:type\s+)?CLAUSE(?:\s*,\s*CLAUSE)*\s+from\s+`. -/
def importExportHead : Pat :=
  .seq (.alt (.lit "import".toList) (.lit "export".toList))
  (.seq (Pat.plus (.one wsChar))
  (.seq (Pat.opt (.seq (.lit "type".toList) (Pat.plus (.one wsChar))))
  (.seq clausePat
  (.seq (.star (.seq (.star (.one wsChar))
                 (.seq (.lit [',']) (.seq (.star (.one wsChar)) clausePat))))
  (.seq (Pat.plus (.one wsChar))
  (.seq (.lit "from".toList) (Pat.plus (.one wsChar))))))))

/-- Quote-character test for the capture group `(['"])`. -/
def quoteChar (c : Char) : Bool := c = '\'' || c = '"'

/-- Try `createImportExportRegex` at the head of `s`; on success return the
full match length, the quote character and the captured specifier.  The tail
`(['"])([^'"]+)\1` is handled directly: after a candidate head the greedy
`[^'"]+` run must be non-empty and be closed by the same quote that opened
it (the JavaScript engine backtracks through head candidates exactly like
the `findSome?` here). -/
def matchImportExportAt (s : Str) : Option (Nat × Char × Str) :=
  (matchLens (matchFuel importExportHead s) importExportHead s).findSome? fun n =>
    match s.drop n with
    | [] => none
    | q :: rest =>
      if quoteChar q then
        let spec := rest.takeWhile fun c => !quoteChar c
        if spec.isEmpty then none
        else
          match rest.drop spec.length with
          | [] => none
          | q' :: _ => if q' = q then some (n + spec.length + 2, q, spec) else none
      else none

/-- The `while ((match = importExportRegex.exec(sourceCode)) !== null)` scan:
leftmost matches, continuing after each full match.  Entries are
`(index, length, quote, specifier)`. -/
def findAllImportExportFrom : Nat → Str → Nat → List (Nat × Nat × Char × Str)
  | 0, _, _ => []
  | fuel + 1, s, i =>
    match matchImportExportAt s with
    | some (len, q, spec) =>
      (i, len, q, spec) :: findAllImportExportFrom fuel (s.drop len) (i + len)
    | none =>
      match s with
      | [] => []
      | _ :: rest => findAllImportExportFrom fuel rest (i + 1)

/-- All matches of the import/export regex over the source. -/
def findAllImportExport (s : Str) : List (Nat × Nat × Char × Str) :=
  findAllImportExportFrom (s.length + 1) s 0

/-- `fullMatch.lastIndexOf(quotedSpecifier)` of JavaScript: the largest
index at which the pattern occurs, if any. -/
def lastIndexOf (l pat : Str) : Option Nat :=
  (((List.range (l.length + 1)).filter fun i => jsStartsWith (l.drop i) pat)).getLast?

/-- The line scan of `findMissingImports` (`find_missing_imports.ts`,
simple version): walk the lines accumulating `currentPos` and convert the
absolute positions into `(startLine, startChar, endChar)` at the first line
whose extent passes `absoluteStart`. -/
def toLineChar : List Str → Nat → Nat → Nat → Nat → Option (Nat × Nat × Nat)
  | [], _, _, _, _ => none
  | line :: rest, i, currentPos, absoluteStart, absoluteEnd =>
    if currentPos + (line.length + 1) > absoluteStart then
      some (i, absoluteStart - currentPos, absoluteEnd - currentPos)
    else
      toLineChar rest (i + 1) (currentPos + (line.length + 1)) absoluteStart absoluteEnd

/-- `findMissingImports` of `find_missing_imports.ts` (`src/unnamed/part_009`
lines 204-279; the optimized variant at lines 29-142 computes the same
result with precomputed line offsets): scan the raw text for
import/export…from clauses, keep only specifiers present in
`specifierReplacements`, locate the quoted specifier inside the match via
`lastIndexOf`, convert to line/character positions, and drop any span the
structural pass already produced. -/
def findMissingImports (sourceCode : Str)
    (specifierReplacements : List (Str × Str))
    (existingReplacements : List Replacement) : List Replacement :=
  if specifierReplacements.isEmpty then []
  else
    (findAllImportExport sourceCode).filterMap fun m =>
      let mIndex := m.1
      let mLen := m.2.1
      let quote := m.2.2.1
      let spec := m.2.2.2
      match assocFind spec specifierReplacements with
      | none => none
      | some newSpec =>
        let fullMatch := (sourceCode.drop mIndex).take mLen
        let quotedSpecifier := quote :: spec ++ [quote]
        match lastIndexOf fullMatch quotedSpecifier with
        | none => none
        | some specifierIndex =>
          let absoluteStart := mIndex + specifierIndex
          let absoluteEnd := absoluteStart + quotedSpecifier.length
          match toLineChar (splitLines sourceCode) 0 0 absoluteStart absoluteEnd with
          | none => none
          | some (i, startChar, endChar) =>
            if existingReplacements.any fun r =>
                r.startLine = i && r.startChar = startChar && r.endChar = endChar then
              none
            else
              some { startLine := i, startChar := startChar, endLine := i,
                     endChar := endChar, specifier := spec, newSpecifier := newSpec }

/-- `replaceImports` of `replace_imports.ts` (current two-pass version):
collect replacements from the parser-reported dependencies, add the
occurrences the gap-fill scan finds, and apply them; with no replacements
the source is returned unchanged. -/
def replaceImports (sourceCode : Str) (dependencies : List Dependency)
    (replacer : Str → Str) : Str :=
  let collected := collectReplacements dependencies replacer
  let replacements := collected.1
  let specifierReplacements := collected.2
  let missingImports := findMissingImports sourceCode specifierReplacements replacements
  let allReplacements := replacements ++ missingImports
  if allReplacements.isEmpty then sourceCode
  else applyReplacements sourceCode allReplacements

/-! Helper lemmas about line splitting and joining. -/

/-- A string without a newline splits into the single line it is. -/
theorem splitLines_no_newline (l : Str) (h : '\n' ∉ l) : splitLines l = [l] := by
  induction l with
  | nil => rfl
  | cons c rest ih =>
    have hc : c ≠ '\n' := fun hc => h (hc ▸ List.mem_cons_self c rest)
    have hr : '\n' ∉ rest := fun hr => h (List.mem_cons_of_mem c hr)
    simp [splitLines, hc, ih hr]

/-- Splitting after a newline-free first line peels it off. -/
theorem splitLines_line_cons (l t : Str) (h : '\n' ∉ l) :
    splitLines (l ++ '\n' :: t) = l :: splitLines t := by
  induction l with
  | nil => simp [splitLines]
  | cons c rest ih =>
    have hc : c ≠ '\n' := fun hc => h (hc ▸ List.mem_cons_self c rest)
    have hr : '\n' ∉ rest := fun hr => h (List.mem_cons_of_mem c hr)
    have step := ih hr
    simp only [List.cons_append, splitLines, if_neg hc, List.append_eq, step]

/-- `splitLines` is a left inverse of `joinLines` on newline-free lines. -/
theorem splitLines_joinLines (lines : List Str) (hne : lines ≠ [])
    (h : ∀ l ∈ lines, '\n' ∉ l) : splitLines (joinLines lines) = lines := by
  induction lines with
  | nil => exact absurd rfl hne
  | cons l rest ih =>
    match rest with
    | [] => exact splitLines_no_newline l (h l (List.mem_cons_self l []))
    | l' :: rest' =>
      have h1 : '\n' ∉ l := h l (List.mem_cons_self _ _)
      have h2 : ∀ x ∈ l' :: rest', '\n' ∉ x := fun x hx => h x (List.mem_cons_of_mem _ hx)
      have : joinLines (l :: l' :: rest') = l ++ '\n' :: joinLines (l' :: rest') := rfl
      rw [this, splitLines_line_cons l _ h1, ih (by simp) h2]

/-- Identity replacers generate no replacements and an empty specifier map. -/
theorem collectReplacements_id (deps : List Dependency) :
    collectReplacements deps (fun s => s) = ([], []) := by
  induction deps with
  | nil => rfl
  | cons d rest ih => simp [collectReplacements, ih]

/-- Every replacement collected from the structural pass records the
replacer's output for its specifier, and only changed specifiers appear. -/
theorem collectReplacements_changed (deps : List Dependency) (replacer : Str → Str)
    (r : Replacement) (hr : r ∈ (collectReplacements deps replacer).1) :
    replacer r.specifier = r.newSpecifier ∧ r.newSpecifier ≠ r.specifier := by
  induction deps with
  | nil => simp [collectReplacements] at hr
  | cons d rest ih =>
    by_cases hrem : isRemoteSpecifier d.specifier = true
    · have hstep : (collectReplacements (d :: rest) replacer).1 =
          (collectReplacements rest replacer).1 := by
        simp [collectReplacements, hrem]
      rw [hstep] at hr
      exact ih hr
    · by_cases heq : d.specifier = replacer d.specifier
      · have hstep : (collectReplacements (d :: rest) replacer).1 =
            (collectReplacements rest replacer).1 := by
          simp [collectReplacements, hrem, ← heq]
        rw [hstep] at hr
        exact ih hr
      · have hstep : (collectReplacements (d :: rest) replacer).1 =
            (match d.code with
              | some span => [createReplacement span d.specifier (replacer d.specifier)]
              | none => []) ++
            ((match d.type with
              | some span => [createReplacement span d.specifier (replacer d.specifier)]
              | none => []) ++ (collectReplacements rest replacer).1) := by
          simp [collectReplacements, hrem, heq]
        rw [hstep] at hr
        rcases List.mem_append.mp hr with hcode | hr2
        · rcases hcs : d.code with _ | sp
          · rw [hcs] at hcode; simp at hcode
          · rw [hcs] at hcode
            simp only [List.mem_singleton] at hcode
            subst hcode
            refine ⟨rfl, fun hne => heq ?_⟩
            simpa [createReplacement] using hne.symm
        · rcases List.mem_append.mp hr2 with htype | hrest
          · rcases hts : d.type with _ | sp
            · rw [hts] at htype; simp at htype
            · rw [hts] at htype
              simp only [List.mem_singleton] at htype
              subst htype
              refine ⟨rfl, fun hne => heq ?_⟩
              simpa [createReplacement] using hne.symm
          · exact ih hrest

/-- C10: `applyReplacements` always emits the new specifier wrapped in
double quotes, whatever quote the original occurrence used; replacements
are generated only for specifiers the replacer actually changes; and an
identity replacer leaves the source code textually unchanged. -/
theorem C10_replaceImports_double_quote_and_identity :
    (∀ (deps : List Dependency) (replacer : Str → Str) (r : Replacement),
      r ∈ (collectReplacements deps replacer).1 →
      replacer r.specifier = r.newSpecifier ∧ r.newSpecifier ≠ r.specifier) ∧
    (∀ (lines : List Str) (i : Nat) (pre old post newSpec : Str) (q : Char)
      (r : Replacement),
      quoteChar q = true →
      r = ⟨i, pre.length, i, pre.length + old.length + 2, old, newSpec⟩ →
      lines ≠ [] →
      (∀ l ∈ lines, '\n' ∉ l) →
      lines.getD i [] = pre ++ q :: (old ++ [q]) ++ post →
      applyReplacements (joinLines lines) [r] =
        joinLines (lines.set i (pre ++ '"' :: (newSpec ++ ['"']) ++ post))) ∧
    (∀ (sourceCode : Str) (deps : List Dependency),
      replaceImports sourceCode deps (fun s => s) = sourceCode) := by
  refine ⟨collectReplacements_changed, ?_, ?_⟩
  · intro lines i pre old post newSpec q r _hq hrdef hne hnl hget
    subst hrdef
    have hsplit : splitLines (joinLines lines) = lines := splitLines_joinLines lines hne hnl
    unfold applyReplacements
    rw [hsplit]
    have hsort : sortRepls [(⟨i, pre.length, i, pre.length + old.length + 2, old,
        newSpec⟩ : Replacement)] =
        [⟨i, pre.length, i, pre.length + old.length + 2, old, newSpec⟩] := rfl
    rw [hsort]
    simp only [List.foldl_cons, List.foldl_nil]
    unfold applyOneReplacement
    simp only [hget]
    have htake : (pre ++ q :: (old ++ [q]) ++ post).take pre.length = pre := by
      have hassoc : pre ++ q :: (old ++ [q]) ++ post =
          pre ++ (q :: (old ++ [q]) ++ post) := by simp
      rw [hassoc, List.take_left]
    have hdrop : (pre ++ q :: (old ++ [q]) ++ post).drop (pre.length + old.length + 2)
        = post := by
      have hassoc : pre ++ q :: (old ++ [q]) ++ post =
          (pre ++ q :: (old ++ [q])) ++ post := by simp
      have hlen : (pre ++ q :: (old ++ [q])).length = pre.length + old.length + 2 := by
        simp
        omega
      rw [hassoc, ← hlen, List.drop_left]
    rw [htake, hdrop]
    simp
  · intro sourceCode deps
    unfold replaceImports
    rw [collectReplacements_id]
    simp [findMissingImports]

/-- C10 witness: the single-quoted import of the repository's own test is
rewritten with double quotes, and the replacement pipeline with an identity
replacer is the textual identity. -/
theorem C10_witness :
    applyReplacements "import { foo } from 'bar';".toList
      [{ startLine := 0, startChar := 20, endLine := 0, endChar := 25,
         specifier := "bar".toList, newSpecifier := "baz".toList }] =
      "import { foo } from \"baz\";".toList ∧
    replaceImports "const x = 1;".toList
      [{ specifier := "./a.ts".toList, code := some ⟨0, 0, 0, 8⟩, type := none }]
      (fun s => s) = "const x = 1;".toList := by
  constructor
  · have h := C10_replaceImports_double_quote_and_identity.2.1
      ["import { foo } from 'bar';".toList] 0
      "import { foo } from ".toList "bar".toList ";".toList "baz".toList '\'' _
      (by decide) rfl (by decide) (by decide) (by decide)
    exact h.trans (by decide)
  · exact C10_replaceImports_double_quote_and_identity.2.2 _ _

/-! ## Facts about the gap-fill pass (claim C7) -/

/-- A successful JavaScript `startsWith` pins down the prefix. -/
theorem jsStartsWith_take (s p : Str) (h : jsStartsWith s p = true) :
    s.take p.length = p := by
  induction p generalizing s with
  | nil => rfl
  | cons c p' ih =>
    cases s with
    | nil => simp [jsStartsWith, List.isPrefixOf] at h
    | cons d s' =>
      simp only [jsStartsWith, List.isPrefixOf, Bool.and_eq_true, beq_iff_eq] at h
      rcases h with ⟨hc, hp⟩
      subst hc
      simp [List.take, ih s' hp]

/-- `lastIndexOf` returns a genuine occurrence index. -/
theorem lastIndexOf_spec (l pat : Str) (si : Nat) (h : lastIndexOf l pat = some si) :
    jsStartsWith (l.drop si) pat = true := by
  unfold lastIndexOf at h
  have hmem := List.mem_of_mem_getLast? h
  exact (List.mem_filter.mp hmem).2

/-- Offset of the start of line `j` in a list of lines (each line costs its
length plus the newline). -/
def lineOffset (lines : List Str) (j : Nat) : Nat :=
  ((lines.take j).map fun l => l.length + 1).sum

/-- The line scan of `findMissingImports` converts absolute positions
faithfully: the reported start/end characters are the absolute positions
minus the offset of the reported line. -/
theorem toLineChar_spec (ls : List Str) (i cp a b j sc ec : Nat)
    (h : toLineChar ls i cp a b = some (j, sc, ec)) (hcp : cp ≤ a) :
    i ≤ j ∧ cp + lineOffset ls (j - i) ≤ a ∧
    sc = a - (cp + lineOffset ls (j - i)) ∧
    ec = b - (cp + lineOffset ls (j - i)) := by
  induction ls generalizing i cp with
  | nil => simp [toLineChar] at h
  | cons line rest ih =>
    rw [toLineChar] at h
    by_cases hcond : cp + (line.length + 1) > a
    · rw [if_pos hcond] at h
      injection h with h'
      injection h' with h1 h2
      injection h2 with h2 h3
      subst h1; subst h2; subst h3
      refine ⟨Nat.le_refl _, ?_, ?_, ?_⟩ <;> simp [lineOffset, hcp]
    · rw [if_neg hcond] at h
      have hcp' : cp + (line.length + 1) ≤ a := Nat.le_of_not_lt hcond
      obtain ⟨hij, hsum, hsc, hec⟩ := ih (i + 1) (cp + (line.length + 1)) h hcp'
      obtain ⟨k, hk⟩ : ∃ k, j - i = k + 1 := ⟨j - i - 1, by omega⟩
      have hoff : lineOffset (line :: rest) (j - i) =
          (line.length + 1) + lineOffset rest (j - (i + 1)) := by
        unfold lineOffset
        rw [hk, List.take_succ_cons]
        have hk2 : j - (i + 1) = k := by omega
        rw [hk2]
        simp
      constructor
      · omega
      · rw [hoff]; omega

/-- Any quote returned by `matchImportExportAt` really is a quote. -/
theorem matchImportExportAt_quote (s : Str) (len : Nat) (q : Char) (spec : Str)
    (h : matchImportExportAt s = some (len, q, spec)) : quoteChar q = true := by
  unfold matchImportExportAt at h
  obtain ⟨n, _, hn⟩ := List.exists_of_findSome?_eq_some h
  cases hdrop : s.drop n with
  | nil => rw [hdrop] at hn; simp at hn
  | cons q0 rest =>
    rw [hdrop] at hn
    simp only at hn
    by_cases hq : quoteChar q0 = true
    · rw [if_pos hq] at hn
      by_cases hsp : (rest.takeWhile fun c => !quoteChar c).isEmpty = true
      · rw [if_pos hsp] at hn; simp at hn
      · rw [if_neg hsp] at hn
        cases hd2 : rest.drop (rest.takeWhile fun c => !quoteChar c).length with
        | nil => rw [hd2] at hn; simp at hn
        | cons q' rest2 =>
          rw [hd2] at hn
          simp only at hn
          by_cases hqq : q' = q0
          · rw [if_pos hqq] at hn
            injection hn with hn'
            injection hn' with h1 h2
            injection h2 with h2 h3
            subst h2
            exact hq
          · rw [if_neg hqq] at hn; simp at hn
    · rw [if_neg hq] at hn; simp at hn

/-- Unfolding equation of the scan loop at positive fuel. -/
theorem findAllImportExportFrom_succ (fuel : Nat) (s : Str) (i : Nat) :
    findAllImportExportFrom (fuel + 1) s i =
      match matchImportExportAt s with
      | some (len, q, spec) =>
        (i, len, q, spec) :: findAllImportExportFrom fuel (s.drop len) (i + len)
      | none =>
        match s with
        | [] => []
        | _ :: rest => findAllImportExportFrom fuel rest (i + 1) := rfl

/-- Every entry of the full regex scan carries a genuine quote character. -/
theorem findAllImportExportFrom_quote (fuel : Nat) (s : Str) (i : Nat)
    (x : Nat × Nat × Char × Str) (hx : x ∈ findAllImportExportFrom fuel s i) :
    quoteChar x.2.2.1 = true := by
  induction fuel generalizing s i with
  | zero => simp [findAllImportExportFrom] at hx
  | succ fuel ih =>
    rw [findAllImportExportFrom_succ] at hx
    cases hm : matchImportExportAt s with
    | some v =>
      obtain ⟨len, q, spec⟩ := v
      rw [hm] at hx
      rcases List.mem_cons.mp hx with hhead | htail
      · subst hhead
        exact matchImportExportAt_quote s len q spec hm
      · exact ih _ _ htail
    | none =>
      rw [hm] at hx
      cases s with
      | nil => simp at hx
      | cons c rest => exact ih _ _ hx

/-- C7 (amended): every replacement the gap-fill pass returns (1) has a
`(line, startChar, endChar)` key distinct from every replacement of the
structural pass, (2) maps a specifier registered in `specifierReplacements`
to exactly its registered target, and (3) points at a genuine quoted
occurrence of that specifier in the raw source text (the scan is purely
textual, so such occurrences may also lie inside comments or string
literals — see the counterexample). -/
theorem C7_gap_fill_invariants (sourceCode : Str)
    (specifierReplacements : List (Str × Str)) (existing : List Replacement)
    (r : Replacement)
    (hr : r ∈ findMissingImports sourceCode specifierReplacements existing) :
    (∀ e ∈ existing,
      ¬(e.startLine = r.startLine ∧ e.startChar = r.startChar ∧ e.endChar = r.endChar)) ∧
    assocFind r.specifier specifierReplacements = some r.newSpecifier ∧
    r.endLine = r.startLine ∧
    r.endChar - r.startChar = r.specifier.length + 2 ∧
    (∃ q, quoteChar q = true ∧
      (sourceCode.drop (lineOffset (splitLines sourceCode) r.startLine + r.startChar)).take
          (r.endChar - r.startChar) = q :: (r.specifier ++ [q])) := by
  unfold findMissingImports at hr
  by_cases hempty : specifierReplacements.isEmpty = true
  · rw [if_pos hempty] at hr; simp at hr
  · rw [if_neg hempty] at hr
    obtain ⟨m, hm, hf⟩ := List.mem_filterMap.mp hr
    obtain ⟨mIndex, mLen, quote, spec⟩ := m
    have hquote : quoteChar quote = true := findAllImportExportFrom_quote _ _ _ _ hm
    simp only at hf
    cases hassoc : assocFind spec specifierReplacements with
    | none => rw [hassoc] at hf; simp at hf
    | some newSpec =>
      rw [hassoc] at hf
      simp only at hf
      cases hlast : lastIndexOf ((sourceCode.drop mIndex).take mLen)
          (quote :: spec ++ [quote]) with
      | none => rw [hlast] at hf; simp at hf
      | some si =>
        rw [hlast] at hf
        simp only at hf
        cases hline : toLineChar (splitLines sourceCode) 0 0 (mIndex + si)
            (mIndex + si + (quote :: spec ++ [quote]).length) with
        | none => rw [hline] at hf; simp at hf
        | some t =>
          obtain ⟨j, sc, ec⟩ := t
          rw [hline] at hf
          simp only at hf
          by_cases hdup : (existing.any fun e =>
              e.startLine = j && e.startChar = sc && e.endChar = ec) = true
          · rw [if_pos hdup] at hf; simp at hf
          · rw [if_neg hdup] at hf
            injection hf with hf
            subst hf
            -- positions from the line scan
            obtain ⟨_, hsum, hsc, hec⟩ :=
              toLineChar_spec (splitLines sourceCode) 0 0 (mIndex + si)
                (mIndex + si + (quote :: spec ++ [quote]).length) j sc ec hline
                (Nat.zero_le _)
            have hoffle : lineOffset (splitLines sourceCode) j ≤ mIndex + si := by
              simpa using hsum
            have hscv : sc = mIndex + si - lineOffset (splitLines sourceCode) j := by
              simpa using hsc
            have hecv : ec = mIndex + si + (quote :: spec ++ [quote]).length -
                lineOffset (splitLines sourceCode) j := by
              simpa using hec
            have hlenq : (quote :: spec ++ [quote]).length = spec.length + 2 := by
              simp
            refine ⟨?_, hassoc, rfl, ?_, ?_⟩
            · intro e he hkey
              apply hdup
              rw [List.any_eq_true]
              refine ⟨e, he, ?_⟩
              simp only [Bool.and_eq_true, decide_eq_true_eq]
              exact ⟨⟨hkey.1, hkey.2.1⟩, hkey.2.2⟩
            · simp only
              omega
            · refine ⟨quote, hquote, ?_⟩
              simp only
              -- the occurrence certified by lastIndexOf
              have hocc := lastIndexOf_spec _ _ _ hlast
              have htake := jsStartsWith_take _ _ hocc
              have hdt : ((sourceCode.drop mIndex).take mLen).drop si =
                  (sourceCode.drop (mIndex + si)).take (mLen - si) := by
                rw [List.drop_take]
                congr 1
                rw [List.drop_drop]
              rw [hdt, List.take_take] at htake
              have harith : lineOffset (splitLines sourceCode) j + sc = mIndex + si := by
                omega
              have hcount : ec - sc = (quote :: spec ++ [quote]).length := by
                omega
              rw [harith, hcount]
              -- promote the take over the truncated window to the full window
              set L := (quote :: spec ++ [quote]).length with hL
              have hlen1 : ((sourceCode.drop (mIndex + si)).take (min L (mLen - si))).length
                  = L := by rw [htake]
              have hminle : min L (mLen - si) ≤ L := Nat.min_le_left _ _
              have hlen2 : ((sourceCode.drop (mIndex + si)).take (min L (mLen - si))).length
                  ≤ min L (mLen - si) := by
                rw [List.length_take]
                exact Nat.min_le_left _ _
              have hminL : min L (mLen - si) = L := by omega
              rw [hminL] at htake
              exact htake

/-- C7 counterexample: the whole line is a `//` comment, yet the gap-fill
scan still reports the quoted specifier occurrence inside it — the textual
pass does not exclude comments (or string literals). -/
theorem C7_counterexample :
    jsStartsWith "// import { a } from \"x\"".toList "//".toList = true ∧
    findMissingImports "// import { a } from \"x\"".toList
      [("x".toList, "y".toList)] [] =
      [⟨0, 21, 0, 24, "x".toList, "y".toList⟩] := by
  constructor
  · decide
  · decide

/-- C7 witness: a concrete `export … from` occurrence that the structural
pass missed is reported by the gap-fill pass and satisfies the invariants. -/
theorem C7_witness :
    (⟨0, 18, 0, 21, "x".toList, "y".toList⟩ : Replacement) ∈
      findMissingImports "export { a } from \"x\";".toList
        [("x".toList, "y".toList)] [⟨2, 3, 2, 7, "x".toList, "y".toList⟩] ∧
    ((∀ e ∈ [(⟨2, 3, 2, 7, "x".toList, "y".toList⟩ : Replacement)],
      ¬(e.startLine = 0 ∧ e.startChar = 18 ∧ e.endChar = 21)) ∧
    assocFind "x".toList [("x".toList, "y".toList)] = some "y".toList ∧
    (0 : Nat) = 0 ∧
    (21 : Nat) - 18 = "x".toList.length + 2 ∧
    (∃ q, quoteChar q = true ∧
      ("export { a } from \"x\";".toList.drop
          (lineOffset (splitLines "export { a } from \"x\";".toList) 0 + 18)).take (21 - 18) =
        q :: ("x".toList ++ [q]))) := by
  refine ⟨by decide, ?_⟩
  exact C7_gap_fill_invariants "export { a } from \"x\";".toList
    [("x".toList, "y".toList)] [⟨2, 3, 2, 7, "x".toList, "y".toList⟩]
    ⟨0, 18, 0, 21, "x".toList, "y".toList⟩ (by decide)

/-! ## Content-addressed cache (`src/cache.ts`, `src/unnamed/part_008`)

`getCacheHashHex` digests `JSON.stringify({specifier, code, importMap})`.
The SHA-256 primitive (`crypto.subtle.digestSync`) is a platform collaborator
and is passed in as the `digest` parameter; `JSON.stringify`'s canonical
serialization (ECMA-262 `QuoteJSONString`, insertion-order keys, no spaces)
is modelled concretely below, because the hash-separation property of claim
C5 rests on its injectivity. -/

/-- The import map value (`src/import_map.ts`): required `imports` object and
optional `scopes` object, each with insertion-ordered string keys. -/
structure ImportMap where
  imports : List (Str × Str)
  scopes : Option (List (Str × List (Str × Str)))
deriving DecidableEq

/-- Lowercase hex digit, as produced by `JSON.stringify`'s `\u` escapes. -/
def hexDigit (n : Nat) : Char :=
  if n < 10 then Char.ofNat (48 + n) else Char.ofNat (87 + n)

/-- One character of `QuoteJSONString`: quote and backslash get two-character
escapes, the named control characters get theirs, the remaining control
characters get `\u00xx`, everything else passes through. -/
def escChar (c : Char) : Str :=
  if c = '"' then ['\\', '"']
  else if c = '\\' then ['\\', '\\']
  else if c.toNat = 8 then ['\\', 'b']
  else if c.toNat = 9 then ['\\', 't']
  else if c.toNat = 10 then ['\\', 'n']
  else if c.toNat = 12 then ['\\', 'f']
  else if c.toNat = 13 then ['\\', 'r']
  else if c.toNat < 32 then
    ['\\', 'u', '0', '0', hexDigit (c.toNat / 16), hexDigit (c.toNat % 16)]
  else [c]

/-- The body of a JSON string literal. -/
def escStr (s : Str) : Str := s.flatMap escChar

/-- A complete JSON string literal. -/
def quoteStr (s : Str) : Str := '"' :: escStr s ++ ['"']

/-- One `"key":"value"` member of a JSON object of strings. -/
def entryItem (kv : Str × Str) : Str := quoteStr kv.1 ++ ':' :: quoteStr kv.2

/-- Comma-joined members. -/
def entriesBody : List (Str × Str) → Str
  | [] => []
  | [kv] => entryItem kv
  | kv :: rest => entryItem kv ++ ',' :: entriesBody rest

/-- `JSON.stringify` of a string-to-string object. -/
def serializeEntries (entries : List (Str × Str)) : Str :=
  lbrace :: entriesBody entries ++ [rbrace]

/-- One `"scope":{...}` member of the scopes object. -/
def scopeItem (kv : Str × List (Str × Str)) : Str :=
  quoteStr kv.1 ++ ':' :: serializeEntries kv.2

/-- Comma-joined scope members. -/
def scopesBody : List (Str × List (Str × Str)) → Str
  | [] => []
  | [kv] => scopeItem kv
  | kv :: rest => scopeItem kv ++ ',' :: scopesBody rest

/-- `JSON.stringify` of the scopes object. -/
def serializeScopes (scopes : List (Str × List (Str × Str))) : Str :=
  lbrace :: scopesBody scopes ++ [rbrace]

/-- `JSON.stringify` of the import map value (`scopes` omitted when absent,
exactly as `JSON.stringify` omits `undefined` members). -/
def serializeImportMap (m : ImportMap) : Str :=
  lbrace :: (quoteStr "imports".toList ++ ':' :: serializeEntries m.imports ++
    (match m.scopes with
     | none => []
     | some sc => ',' :: (quoteStr "scopes".toList ++ ':' :: serializeScopes sc))) ++ [rbrace]

/-- `JSON.stringify({ specifier, code: sourceCode, importMap })` of
`getCacheHashHex` (`src/cache.ts` lines 25-32). -/
def serializeTriple (specifier sourceCode : Str) (importMap : ImportMap) : Str :=
  lbrace :: (quoteStr "specifier".toList ++ ':' :: quoteStr specifier ++
    ',' :: (quoteStr "code".toList ++ ':' :: quoteStr sourceCode ++
    ',' :: (quoteStr "importMap".toList ++ ':' :: serializeImportMap importMap))) ++ [rbrace]

/-- Value of a lowercase hex digit character. -/
def hexVal (c : Char) : Option Nat :=
  if '0' ≤ c ∧ c ≤ '9' then some (c.toNat - 48)
  else if 'a' ≤ c ∧ c ≤ 'f' then some (c.toNat - 87)
  else none

/-- Decoder of a JSON string-literal body up to its closing quote; returns
the decoded characters and the rest of the input.  This is a proof device
for the injectivity of the serialization. -/
def unescStr : Str → Option (Str × Str)
  | [] => none
  | c :: rest =>
    if c = '"' then some ([], rest)
    else if c = '\\' then
      match rest with
      | [] => none
      | e :: rest2 =>
        if e = '"' then (unescStr rest2).map fun p => ('"' :: p.1, p.2)
        else if e = '\\' then (unescStr rest2).map fun p => ('\\' :: p.1, p.2)
        else if e = 'b' then (unescStr rest2).map fun p => (Char.ofNat 8 :: p.1, p.2)
        else if e = 't' then (unescStr rest2).map fun p => (Char.ofNat 9 :: p.1, p.2)
        else if e = 'n' then (unescStr rest2).map fun p => (Char.ofNat 10 :: p.1, p.2)
        else if e = 'f' then (unescStr rest2).map fun p => (Char.ofNat 12 :: p.1, p.2)
        else if e = 'r' then (unescStr rest2).map fun p => (Char.ofNat 13 :: p.1, p.2)
        else if e = 'u' then
          match rest2 with
          | d1 :: d2 :: d3 :: d4 :: rest3 =>
            if d1 = '0' ∧ d2 = '0' then
              match hexVal d3, hexVal d4 with
              | some hi, some lo =>
                (unescStr rest3).map fun p => (Char.ofNat (16 * hi + lo) :: p.1, p.2)
              | _, _ => none
            else none
          | _ => none
        else none
    else (unescStr rest).map fun p => (c :: p.1, p.2)

/-- Hex digits decode back to their value. -/
theorem hexVal_hexDigit (n : Nat) (h : n < 16) : hexVal (hexDigit n) = some n := by
  interval_cases n <;> decide

/-- The decoder consumes a closing quote. -/
theorem unescStr_quote (r : Str) : unescStr ('"' :: r) = some ([], r) := by
  rw [unescStr.eq_def]; simp

/-- The decoder on an escaped quote. -/
theorem unescStr_escQuote (r : Str) :
    unescStr ('\\' :: '"' :: r) = (unescStr r).map fun p => ('"' :: p.1, p.2) := by
  rw [unescStr.eq_def]; simp

/-- The decoder on an escaped backslash. -/
theorem unescStr_escBackslash (r : Str) :
    unescStr ('\\' :: '\\' :: r) = (unescStr r).map fun p => ('\\' :: p.1, p.2) := by
  rw [unescStr.eq_def]; simp

/-- The decoder on `\b`. -/
theorem unescStr_escB (r : Str) :
    unescStr ('\\' :: 'b' :: r) = (unescStr r).map fun p => (Char.ofNat 8 :: p.1, p.2) := by
  rw [unescStr.eq_def]; simp

/-- The decoder on `\t`. -/
theorem unescStr_escT (r : Str) :
    unescStr ('\\' :: 't' :: r) = (unescStr r).map fun p => (Char.ofNat 9 :: p.1, p.2) := by
  rw [unescStr.eq_def]; simp

/-- The decoder on `\n`. -/
theorem unescStr_escN (r : Str) :
    unescStr ('\\' :: 'n' :: r) = (unescStr r).map fun p => (Char.ofNat 10 :: p.1, p.2) := by
  rw [unescStr.eq_def]; simp

/-- The decoder on `\f`. -/
theorem unescStr_escF (r : Str) :
    unescStr ('\\' :: 'f' :: r) = (unescStr r).map fun p => (Char.ofNat 12 :: p.1, p.2) := by
  rw [unescStr.eq_def]; simp

/-- The decoder on `\r`. -/
theorem unescStr_escR (r : Str) :
    unescStr ('\\' :: 'r' :: r) = (unescStr r).map fun p => (Char.ofNat 13 :: p.1, p.2) := by
  rw [unescStr.eq_def]; simp

/-- The decoder on a `\u00xx` escape with valid digits. -/
theorem unescStr_escU (d3 d4 : Char) (hi lo : Nat) (r : Str)
    (h3 : hexVal d3 = some hi) (h4 : hexVal d4 = some lo) :
    unescStr ('\\' :: 'u' :: '0' :: '0' :: d3 :: d4 :: r) =
      (unescStr r).map fun p => (Char.ofNat (16 * hi + lo) :: p.1, p.2) := by
  rw [unescStr.eq_def]; simp [h3, h4]

/-- The decoder on an ordinary character. -/
theorem unescStr_plain (c : Char) (r : Str) (h1 : c ≠ '"') (h2 : c ≠ '\\') :
    unescStr (c :: r) = (unescStr r).map fun p => (c :: p.1, p.2) := by
  rw [unescStr.eq_def]; simp [h1, h2]

/-- The decoder inverts the escaper: decoding the escaped body followed by a
closing quote recovers the original characters and the rest verbatim. -/
theorem unescStr_escStr (s rest : Str) :
    unescStr (escStr s ++ '"' :: rest) = some (s, rest) := by
  induction s with
  | nil => simp [escStr, unescStr_quote]
  | cons c s' ih =>
    have hstep : escStr (c :: s') = escChar c ++ escStr s' := by
      simp [escStr]
    rw [hstep, List.append_assoc]
    by_cases h1 : c = '"'
    · subst h1
      have : escChar '"' = ['\\', '"'] := rfl
      rw [this]
      simp [unescStr_escQuote, ih]
    · by_cases h2 : c = '\\'
      · subst h2
        have : escChar '\\' = ['\\', '\\'] := rfl
        rw [this]
        simp [unescStr_escBackslash, ih]
      · by_cases h3 : c.toNat = 8
        · have hesc : escChar c = ['\\', 'b'] := by simp [escChar, h1, h2, h3]
          have hc : Char.ofNat 8 = c := by rw [← h3, Char.ofNat_toNat]
          rw [hesc]
          simp [unescStr_escB, ih]
          exact hc
        · by_cases h4 : c.toNat = 9
          · have hesc : escChar c = ['\\', 't'] := by simp [escChar, h1, h2, h3, h4]
            have hc : Char.ofNat 9 = c := by rw [← h4, Char.ofNat_toNat]
            rw [hesc]
            simp [unescStr_escT, ih]
            exact hc
          · by_cases h5 : c.toNat = 10
            · have hesc : escChar c = ['\\', 'n'] := by simp [escChar, h1, h2, h3, h4, h5]
              have hc : Char.ofNat 10 = c := by rw [← h5, Char.ofNat_toNat]
              rw [hesc]
              simp [unescStr_escN, ih]
              exact hc
            · by_cases h6 : c.toNat = 12
              · have hesc : escChar c = ['\\', 'f'] := by
                  simp [escChar, h1, h2, h3, h4, h5, h6]
                have hc : Char.ofNat 12 = c := by rw [← h6, Char.ofNat_toNat]
                rw [hesc]
                simp [unescStr_escF, ih]
                exact hc
              · by_cases h7 : c.toNat = 13
                · have hesc : escChar c = ['\\', 'r'] := by
                    simp [escChar, h1, h2, h3, h4, h5, h6, h7]
                  have hc : Char.ofNat 13 = c := by rw [← h7, Char.ofNat_toNat]
                  rw [hesc]
                  simp [unescStr_escR, ih]
                  exact hc
                · by_cases h8 : c.toNat < 32
                  · have hesc : escChar c = ['\\', 'u', '0', '0',
                        hexDigit (c.toNat / 16), hexDigit (c.toNat % 16)] := by
                      simp [escChar, h1, h2, h3, h4, h5, h6, h7, h8]
                    have hdiv : c.toNat / 16 < 16 := by omega
                    have hmod : c.toNat % 16 < 16 := Nat.mod_lt _ (by omega)
                    have hc : Char.ofNat (16 * (c.toNat / 16) + c.toNat % 16) = c := by
                      have hrec : 16 * (c.toNat / 16) + c.toNat % 16 = c.toNat := by
                        omega
                      rw [hrec, Char.ofNat_toNat]
                    rw [hesc]
                    simp only [List.cons_append, List.nil_append]
                    rw [unescStr_escU _ _ _ _ _ (hexVal_hexDigit _ hdiv)
                      (hexVal_hexDigit _ hmod), ih]
                    simp [hc]
                  · have hesc : escChar c = [c] := by
                      simp [escChar, h1, h2, h3, h4, h5, h6, h7, h8]
                    rw [hesc]
                    simp only [List.cons_append, List.nil_append]
                    rw [unescStr_plain c _ h1 h2, ih]
                    simp

/-- A JSON string literal followed by anything, in head-normal form. -/
theorem quote_head (a w : Str) : quoteStr a ++ w = '"' :: (escStr a ++ '"' :: w) := by
  simp [quoteStr]

/-- Cancellation for JSON string literals: a serialized string determines
its content and whatever follows it. -/
theorem quoteStr_cancel (a b x y : Str) (h : quoteStr a ++ x = quoteStr b ++ y) :
    a = b ∧ x = y := by
  rw [quote_head, quote_head] at h
  injection h with _ h2
  have hd := congrArg unescStr h2
  rw [unescStr_escStr, unescStr_escStr] at hd
  injection hd with hd
  exact ⟨congrArg Prod.fst hd, congrArg Prod.snd hd⟩

/-- What follows the first member of a serialized string-object body. -/
def entriesTail (rest : List (Str × Str)) (z : Str) : Str :=
  match rest with
  | [] => z
  | _ :: _ => ',' :: (entriesBody rest ++ z)

/-- Head-normal form of a non-empty serialized object body. -/
theorem entriesBody_cons_append (f : Str × Str) (rest : List (Str × Str)) (z : Str) :
    entriesBody (f :: rest) ++ z =
      quoteStr f.1 ++ ':' :: (quoteStr f.2 ++ entriesTail rest z) := by
  cases rest <;> simp [entriesBody, entryItem, entriesTail]

/-- Cancellation for serialized string-object bodies terminated by `}`. -/
theorem entriesBody_cancel (es : List (Str × Str)) :
    ∀ (fs : List (Str × Str)) (x y : Str),
      entriesBody es ++ rbrace :: x = entriesBody fs ++ rbrace :: y →
      es = fs ∧ x = y := by
  induction es with
  | nil =>
    intro fs x y h
    cases fs with
    | nil =>
      simp only [entriesBody, List.nil_append] at h
      injection h with _ h2
      exact ⟨rfl, h2⟩
    | cons f fs' =>
      rw [entriesBody_cons_append, quote_head] at h
      simp only [entriesBody, List.nil_append] at h
      injection h with h1 _
      exact absurd h1 (by decide)
  | cons e es' ih =>
    intro fs x y h
    cases fs with
    | nil =>
      rw [entriesBody_cons_append, quote_head] at h
      simp only [entriesBody, List.nil_append] at h
      injection h with h1 _
      exact absurd h1 (by decide)
    | cons f fs' =>
      rw [entriesBody_cons_append, entriesBody_cons_append] at h
      obtain ⟨hk, h2⟩ := quoteStr_cancel _ _ _ _ h
      injection h2 with _ h3
      obtain ⟨hv, h4⟩ := quoteStr_cancel _ _ _ _ h3
      have hef : e = f := Prod.ext hk hv
      cases es' with
      | nil =>
        cases fs' with
        | nil =>
          simp only [entriesTail] at h4
          injection h4 with _ h5
          exact ⟨by rw [hef], h5⟩
        | cons f2 fs'' =>
          simp only [entriesTail] at h4
          injection h4 with h5 _
          exact absurd h5 (by decide)
      | cons e2 es'' =>
        cases fs' with
        | nil =>
          simp only [entriesTail] at h4
          injection h4 with h5 _
          exact absurd h5 (by decide)
        | cons f2 fs'' =>
          simp only [entriesTail] at h4
          injection h4 with _ h5
          obtain ⟨h6, h7⟩ := ih (f2 :: fs'') x y h5
          exact ⟨by rw [hef, h6], h7⟩

/-- What follows the first member of a serialized scopes-object body. -/
def scopesTail (rest : List (Str × List (Str × Str))) (z : Str) : Str :=
  match rest with
  | [] => z
  | _ :: _ => ',' :: (scopesBody rest ++ z)

/-- Head-normal form of a non-empty serialized scopes body. -/
theorem scopesBody_cons_append (f : Str × List (Str × Str))
    (rest : List (Str × List (Str × Str))) (z : Str) :
    scopesBody (f :: rest) ++ z =
      quoteStr f.1 ++ ':' :: (lbrace :: (entriesBody f.2 ++ rbrace :: scopesTail rest z)) := by
  cases rest <;> simp [scopesBody, scopeItem, serializeEntries, scopesTail]

/-- Cancellation for serialized scopes bodies terminated by `}`. -/
theorem scopesBody_cancel (es : List (Str × List (Str × Str))) :
    ∀ (fs : List (Str × List (Str × Str))) (x y : Str),
      scopesBody es ++ rbrace :: x = scopesBody fs ++ rbrace :: y →
      es = fs ∧ x = y := by
  induction es with
  | nil =>
    intro fs x y h
    cases fs with
    | nil =>
      simp only [scopesBody, List.nil_append] at h
      injection h with _ h2
      exact ⟨rfl, h2⟩
    | cons f fs' =>
      rw [scopesBody_cons_append, quote_head] at h
      simp only [scopesBody, List.nil_append] at h
      injection h with h1 _
      exact absurd h1 (by decide)
  | cons e es' ih =>
    intro fs x y h
    cases fs with
    | nil =>
      rw [scopesBody_cons_append, quote_head] at h
      simp only [scopesBody, List.nil_append] at h
      injection h with h1 _
      exact absurd h1 (by decide)
    | cons f fs' =>
      rw [scopesBody_cons_append, scopesBody_cons_append] at h
      obtain ⟨hk, h2⟩ := quoteStr_cancel _ _ _ _ h
      injection h2 with _ h3
      injection h3 with _ h4
      obtain ⟨hv, h5⟩ := entriesBody_cancel _ _ _ _ h4
      have hef : e = f := Prod.ext hk hv
      cases es' with
      | nil =>
        cases fs' with
        | nil =>
          simp only [scopesTail] at h5
          injection h5 with _ h6
          exact ⟨by rw [hef], h6⟩
        | cons f2 fs'' =>
          simp only [scopesTail] at h5
          injection h5 with h6 _
          exact absurd h6 (by decide)
      | cons e2 es'' =>
        cases fs' with
        | nil =>
          simp only [scopesTail] at h5
          injection h5 with h6 _
          exact absurd h6 (by decide)
        | cons f2 fs'' =>
          simp only [scopesTail] at h5
          injection h5 with _ h6
          obtain ⟨h7, h8⟩ := ih (f2 :: fs'') x y h6
          exact ⟨by rw [hef, h7], h8⟩

/-- What follows the `imports` object in the serialized import map. -/
def importMapTail (scopes : Option (List (Str × List (Str × Str)))) (z : Str) : Str :=
  match scopes with
  | none => rbrace :: z
  | some sc =>
    ',' :: (quoteStr "scopes".toList ++ ':' ::
      (lbrace :: (scopesBody sc ++ rbrace :: (rbrace :: z))))

/-- Head-normal form of the serialized import map followed by anything. -/
theorem serializeImportMap_append (m : ImportMap) (z : Str) :
    serializeImportMap m ++ z =
      lbrace :: (quoteStr "imports".toList ++ ':' ::
        (lbrace :: (entriesBody m.imports ++ rbrace :: importMapTail m.scopes z))) := by
  cases hsc : m.scopes <;>
    simp [serializeImportMap, serializeEntries, serializeScopes, importMapTail, hsc]

/-- Cancellation for the serialized import map. -/
theorem serializeImportMap_cancel (m m' : ImportMap) (x y : Str)
    (h : serializeImportMap m ++ x = serializeImportMap m' ++ y) :
    m = m' ∧ x = y := by
  rw [serializeImportMap_append, serializeImportMap_append] at h
  injection h with _ h2
  obtain ⟨_, h3⟩ := quoteStr_cancel _ _ _ _ h2
  injection h3 with _ h4
  injection h4 with _ h5
  obtain ⟨him, h6⟩ := entriesBody_cancel _ _ _ _ h5
  cases hm : m.scopes with
  | none =>
    cases hm' : m'.scopes with
    | none =>
      rw [hm, hm'] at h6
      simp only [importMapTail] at h6
      injection h6 with _ h7
      cases m; cases m'
      simp_all
    | some sc' =>
      rw [hm, hm'] at h6
      simp only [importMapTail] at h6
      injection h6 with h7 _
      exact absurd h7 (by decide)
  | some sc =>
    cases hm' : m'.scopes with
    | none =>
      rw [hm, hm'] at h6
      simp only [importMapTail] at h6
      injection h6 with h7 _
      exact absurd h7 (by decide)
    | some sc' =>
      rw [hm, hm'] at h6
      simp only [importMapTail] at h6
      injection h6 with _ h7
      obtain ⟨_, h8⟩ := quoteStr_cancel _ _ _ _ h7
      injection h8 with _ h9
      injection h9 with _ h10
      obtain ⟨hsc, h11⟩ := scopesBody_cancel _ _ _ _ h10
      injection h11 with _ h12
      cases m; cases m'
      simp_all

/-- The canonical serialization of the hashed triple is injective: two
triples with the same `JSON.stringify` image are equal. -/
theorem serializeTriple_inj (s c : Str) (m : ImportMap) (s' c' : Str) (m' : ImportMap)
    (h : serializeTriple s c m = serializeTriple s' c' m') :
    s = s' ∧ c = c' ∧ m = m' := by
  have hform : ∀ (a b : Str) (mm : ImportMap), serializeTriple a b mm =
      lbrace :: (quoteStr "specifier".toList ++ ':' :: (quoteStr a ++ ',' ::
        (quoteStr "code".toList ++ ':' :: (quoteStr b ++ ',' ::
          (quoteStr "importMap".toList ++ ':' ::
            (serializeImportMap mm ++ [rbrace])))))) := by
    intro a b mm
    simp [serializeTriple]
  rw [hform, hform] at h
  injection h with _ h2
  obtain ⟨_, h3⟩ := quoteStr_cancel _ _ _ _ h2
  injection h3 with _ h4
  obtain ⟨hs, h5⟩ := quoteStr_cancel _ _ _ _ h4
  injection h5 with _ h6
  obtain ⟨_, h7⟩ := quoteStr_cancel _ _ _ _ h6
  injection h7 with _ h8
  obtain ⟨hc, h9⟩ := quoteStr_cancel _ _ _ _ h8
  injection h9 with _ h10
  obtain ⟨_, h11⟩ := quoteStr_cancel _ _ _ _ h10
  injection h11 with _ h12
  obtain ⟨hmm, _⟩ := serializeImportMap_cancel _ _ _ _ h12
  exact ⟨hs, hc, hmm⟩

/-- `getCacheHashHex` of `src/cache.ts`: digest the canonical serialization
of `(specifier, code, importMap)`; the SHA-256 primitive is the `digest`
parameter. -/
def getCacheHashHex (digest : Str → Str) (specifier sourceCode : Str)
    (importMap : ImportMap) : Str :=
  digest (serializeTriple specifier sourceCode importMap)

/-- `pathname.split("/")` of JavaScript. -/
def splitOnSlash : Str → List Str
  | [] => [[]]
  | c :: rest =>
    if c = '/' then [] :: splitOnSlash rest
    else
      match splitOnSlash rest with
      | l :: ls => (c :: l) :: ls
      | [] => [[c]]

/-- `getCachePath` of `src/cache.ts` lines 63-77: hash the triple, derive a
basename from the last non-empty segment of the specifier URL's pathname
(`"index.ts"` when there is none), and shard under the first two hex-digit
pairs.  `new URL(specifier).pathname` is the platform `urlPathname`
parameter; a specifier that does not parse as a URL throws, modelled as
`none`. -/
def getCachePath (digest : Str → Str) (urlPathname : Str → Option Str)
    (specifier sourceCode : Str) (importMap : ImportMap) : Option Str :=
  match urlPathname specifier with
  | none => none
  | some pathname =>
    let hashHex := getCacheHashHex digest specifier sourceCode importMap
    let pathParts := (splitOnSlash pathname).filter fun p => ¬p.isEmpty
    let filename := (pathParts.getLast?).getD "index.ts".toList
    some (hashHex.take 2 ++ '/' ::
      ((hashHex.drop 2).take 2 ++ '/' :: (hashHex ++ '-' :: filename)))

/-- C5: `getCacheHashHex` and `getCachePath` are pure functions of the
triple — equal inputs give equal outputs; under a collision-free digest,
changing any one of specifier, source code or import map changes the hash
(the serialized preimages are provably distinct); and for every specifier
whose URL pathname is available the cache path is
`hash[0:2]/hash[2:4]/hash-basename` with basename the last non-empty
pathname segment, defaulting to `index.ts`. -/
theorem C5_cache_hash_determinism_and_path :
    (∀ (digest : Str → Str) (urlPathname : Str → Option Str)
       (s c : Str) (m : ImportMap) (s' c' : Str) (m' : ImportMap),
      s = s' → c = c' → m = m' →
      getCacheHashHex digest s c m = getCacheHashHex digest s' c' m' ∧
      getCachePath digest urlPathname s c m = getCachePath digest urlPathname s' c' m') ∧
    (∀ digest : Str → Str, (∀ u v, digest u = digest v → u = v) →
      ∀ (s c : Str) (m : ImportMap) (s' c' : Str) (m' : ImportMap),
      (s ≠ s' → getCacheHashHex digest s c m ≠ getCacheHashHex digest s' c m) ∧
      (c ≠ c' → getCacheHashHex digest s c m ≠ getCacheHashHex digest s c' m) ∧
      (m ≠ m' → getCacheHashHex digest s c m ≠ getCacheHashHex digest s c m')) ∧
    (∀ (digest : Str → Str) (urlPathname : Str → Option Str)
       (s c : Str) (m : ImportMap) (p : Str),
      urlPathname s = some p →
      getCachePath digest urlPathname s c m =
        some ((getCacheHashHex digest s c m).take 2 ++ '/' ::
          (((getCacheHashHex digest s c m).drop 2).take 2 ++ '/' ::
            (getCacheHashHex digest s c m ++ '-' ::
              ((((splitOnSlash p).filter fun q => ¬q.isEmpty).getLast?).getD
                "index.ts".toList))))) := by
  refine ⟨?_, ?_, ?_⟩
  · intro digest urlPathname s c m s' c' m' hs hc hm
    subst hs; subst hc; subst hm
    exact ⟨rfl, rfl⟩
  · intro digest hinj s c m s' c' m'
    refine ⟨?_, ?_, ?_⟩
    · intro hne hhash
      exact hne (serializeTriple_inj _ _ _ _ _ _ (hinj _ _ hhash)).1
    · intro hne hhash
      exact hne (serializeTriple_inj _ _ _ _ _ _ (hinj _ _ hhash)).2.1
    · intro hne hhash
      exact hne (serializeTriple_inj _ _ _ _ _ _ (hinj _ _ hhash)).2.2
  · intro digest urlPathname s c m p hp
    unfold getCachePath
    rw [hp]

/-- C5 witness: with the identity digest (collision-free by construction),
changing the specifier, the source code or the import map changes the hash
on concrete inputs, and the cache path of a concrete `file://` specifier has
the sharded `hash[0:2]/hash[2:4]/hash-basename` shape with basename
`helper.ts`. -/
theorem C5_witness :
    (getCacheHashHex (fun u => u) "file:///a.ts".toList "code1".toList
        ⟨[("k".toList, "v".toList)], none⟩ ≠
      getCacheHashHex (fun u => u) "file:///b.ts".toList "code1".toList
        ⟨[("k".toList, "v".toList)], none⟩) ∧
    (getCacheHashHex (fun u => u) "file:///a.ts".toList "code1".toList
        ⟨[("k".toList, "v".toList)], none⟩ ≠
      getCacheHashHex (fun u => u) "file:///a.ts".toList "code2".toList
        ⟨[("k".toList, "v".toList)], none⟩) ∧
    (getCacheHashHex (fun u => u) "file:///a.ts".toList "code1".toList
        ⟨[("k".toList, "v".toList)], none⟩ ≠
      getCacheHashHex (fun u => u) "file:///a.ts".toList "code1".toList
        ⟨[("k".toList, "v".toList)], some []⟩) ∧
    (getCachePath (fun u => u)
        (fun s => if s = "file:///src/utils/helper.ts".toList
          then some "/src/utils/helper.ts".toList else none)
        "file:///src/utils/helper.ts".toList "export {}".toList
        ⟨[], none⟩ =
      some ((getCacheHashHex (fun u => u) "file:///src/utils/helper.ts".toList
          "export {}".toList ⟨[], none⟩).take 2 ++ '/' ::
        (((getCacheHashHex (fun u => u) "file:///src/utils/helper.ts".toList
          "export {}".toList ⟨[], none⟩).drop 2).take 2 ++ '/' ::
          (getCacheHashHex (fun u => u) "file:///src/utils/helper.ts".toList
            "export {}".toList ⟨[], none⟩ ++ '-' :: "helper.ts".toList)))) := by
  have hsep := C5_cache_hash_determinism_and_path.2.1 (fun u => u) (fun u v h => h)
  refine ⟨?_, ?_, ?_, ?_⟩
  · exact (hsep "file:///a.ts".toList "code1".toList ⟨[("k".toList, "v".toList)], none⟩
      "file:///b.ts".toList "code1".toList ⟨[("k".toList, "v".toList)], none⟩).1
      (by decide)
  · exact (hsep "file:///a.ts".toList "code1".toList ⟨[("k".toList, "v".toList)], none⟩
      "file:///a.ts".toList "code2".toList ⟨[("k".toList, "v".toList)], none⟩).2.1
      (by decide)
  · exact (hsep "file:///a.ts".toList "code1".toList ⟨[("k".toList, "v".toList)], none⟩
      "file:///a.ts".toList "code1".toList ⟨[("k".toList, "v".toList)], some []⟩).2.2
      (by decide)
  · have h := C5_cache_hash_determinism_and_path.2.2 (fun u => u)
      (fun s => if s = "file:///src/utils/helper.ts".toList
        then some "/src/utils/helper.ts".toList else none)
      "file:///src/utils/helper.ts".toList "export {}".toList ⟨[], none⟩
      "/src/utils/helper.ts".toList (by decide)
    exact h.trans (by decide)

/-! ## Module-identity rewriter (`src/replace_import_meta.ts`)

The four regexes of `replaceImportMeta` are deterministic: every `\s*` is
followed by a non-whitespace literal, so greedy whitespace consumption never
needs backtracking, and each pattern is matched by a straight-line scanner.
The trailing `\b` of the `url`/`filename`/`dirname` regexes and the leading
`\b` of all four are kept as explicit boundary checks; the JavaScript
`String.replace` with the `g` flag is the `replaceAll` driver below
(leftmost match, continue after the consumed text). -/

/-- Word-boundary test against the character preceding the match. -/
def boundaryOk (prev : Option Char) : Bool :=
  match prev with
  | none => true
  | some c => !wordChar c

/-- Consume an exact literal. -/
def chompLit (l s : Str) : Option Str :=
  if l.isPrefixOf s then some (s.drop l.length) else none

/-- Consume `import\s*\.\s*meta\s*\.\s*` (the shared head of all four
`import.meta` regexes), returning the rest of the input. -/
def matchMetaHead (s : Str) : Option Str :=
  (chompLit "import".toList s).bind fun s1 =>
  (chompLit ['.'] (s1.dropWhile wsChar)).bind fun s3 =>
  (chompLit "meta".toList (s3.dropWhile wsChar)).bind fun s5 =>
  (chompLit ['.'] (s5.dropWhile wsChar)).map fun s7 =>
  s7.dropWhile wsChar

/-- Try one of the property regexes
`\bimport\s*\.\s*meta\s*\.\s*<prop>\b` at the head of `s`, given the
preceding character; on success return the consumed length and the fixed
replacement.  The trailing word boundary rejects a following word
character. -/
def tryMetaProp (prop : Str) (rep : Str) (prev : Option Char) (s : Str) :
    Option (Nat × Str) :=
  if boundaryOk prev then
    (matchMetaHead s).bind fun rest =>
    (chompLit prop rest).bind fun rest2 =>
    match rest2 with
    | [] => some (s.length - rest2.length, rep)
    | c :: _ => if wordChar c then none else some (s.length - rest2.length, rep)
  else none

/-- `s.trim()` of JavaScript. -/
def jsTrim (s : Str) : Str :=
  ((s.dropWhile wsChar).reverse.dropWhile wsChar).reverse

/-- Try the dynamic-resolve regex
`\bimport\s*\.\s*meta\s*\.\s*resolve\s*\(\s*([^)]+)\s*\)` at the head of
`s`.  After the opening parenthesis the backtracking of
`\s*([^)]+)\s*\)` resolves to: let `inner` be the maximal run of
non-`)` characters; the match fails when `inner` is empty or no `)`
follows it, and otherwise the capture starts after
`min(leading-whitespace, inner.length - 1)` characters (the greedy
`[^)]+` must keep at least one character).  The replacement is
`new URL(<trimmed capture>, "<escaped url>").href`. -/
def tryMetaResolve (escapedUrl : Str) (prev : Option Char) (s : Str) :
    Option (Nat × Str) :=
  if boundaryOk prev then
    (matchMetaHead s).bind fun rest =>
    (chompLit "resolve".toList rest).bind fun rest2 =>
    (chompLit ['('] (rest2.dropWhile wsChar)).bind fun rest3 =>
    let w := rest3.takeWhile wsChar
    let inner := rest3.takeWhile fun c => c ≠ ')'
    if inner.isEmpty then none
    else
      match rest3.drop inner.length with
      | [] => none
      | _ :: _ =>
        let k := min w.length (inner.length - 1)
        let trimmedArg := jsTrim (inner.drop k)
        some ((s.length - rest3.length) + inner.length + 1,
          "new URL(".toList ++ trimmedArg ++ ", \"".toList ++ escapedUrl ++
            "\").href".toList)
  else none

/-- The `String.replace(/…/g, …)` driver: scan left to right, replace each
match and continue after it, tracking the preceding source character for the
word-boundary tests.  Fuel is the input length plus one; every accepted
match consumes at least one character. -/
def replaceAllGo : Nat → (Option Char → Str → Option (Nat × Str)) →
    Option Char → Str → Str
  | 0, _, _, s => s
  | fuel + 1, tryAt, prev, s =>
    match tryAt prev s with
    | some (n, rep) =>
      if n = 0 then s
      else rep ++ replaceAllGo fuel tryAt ((s.take n).getLast?) (s.drop n)
    | none =>
      match s with
      | [] => []
      | c :: rest => c :: replaceAllGo fuel tryAt (some c) rest

/-- Global replacement over a whole string. -/
def replaceAll (tryAt : Option Char → Str → Option (Nat × Str)) (s : Str) : Str :=
  replaceAllGo (s.length + 1) tryAt none s

/-- The character preceding the continuation: the last character of the
consumed text, or the inherited one when nothing was consumed. -/
def lastO (prev : Option Char) (l : Str) : Option Char :=
  match l.getLast? with
  | some c => some c
  | none => prev

/-- Threading the boundary character through a cons. -/
theorem lastO_cons (prev : Option Char) (c : Char) (x : Str) :
    lastO prev (c :: x) = lastO (some c) x := by
  cases x with
  | nil => simp [lastO]
  | cons d xs =>
    unfold lastO
    rw [List.getLast?_cons_cons]
    cases hgl : (d :: xs).getLast? with
    | some e => rfl
    | none => exact absurd (List.getLast?_eq_none_iff.mp hgl) (by simp)

/-- On non-empty strings the boundary character is the last character. -/
theorem lastO_of_ne_nil (prev : Option Char) (l : Str) (h : l ≠ []) :
    lastO prev l = l.getLast? := by
  cases hl : l.getLast? with
  | some c => simp [lastO, hl]
  | none => exact absurd (List.getLast?_eq_none_iff.mp hl) h

/-- Sanity of a match attempt: an accepted match consumes at least one and
at most all characters. -/
def TrySane (tryAt : Option Char → Str → Option (Nat × Str)) : Prop :=
  ∀ prev s n rep, tryAt prev s = some (n, rep) → 1 ≤ n ∧ n ≤ s.length

/-- Unfolding equation of the driver at positive fuel. -/
theorem replaceAllGo_succ (fuel : Nat) (tryAt : Option Char → Str → Option (Nat × Str))
    (prev : Option Char) (s : Str) :
    replaceAllGo (fuel + 1) tryAt prev s =
      match tryAt prev s with
      | some (n, rep) =>
        if n = 0 then s
        else rep ++ replaceAllGo fuel tryAt ((s.take n).getLast?) (s.drop n)
      | none =>
        match s with
        | [] => []
        | c :: rest => c :: replaceAllGo fuel tryAt (some c) rest := rfl

/-- Driver step on an accepted match. -/
theorem replaceAllGo_succ_some (fuel : Nat)
    (tryAt : Option Char → Str → Option (Nat × Str)) (prev : Option Char)
    (s : Str) (n : Nat) (rep : Str) (h : tryAt prev s = some (n, rep)) :
    replaceAllGo (fuel + 1) tryAt prev s =
      if n = 0 then s
      else rep ++ replaceAllGo fuel tryAt ((s.take n).getLast?) (s.drop n) := by
  rw [replaceAllGo_succ, h]

/-- Driver step on a failed match at the end of input. -/
theorem replaceAllGo_succ_none_nil (fuel : Nat)
    (tryAt : Option Char → Str → Option (Nat × Str)) (prev : Option Char)
    (h : tryAt prev [] = none) :
    replaceAllGo (fuel + 1) tryAt prev [] = [] := by
  rw [replaceAllGo_succ, h]

/-- Driver step on a failed match mid-input. -/
theorem replaceAllGo_succ_none_cons (fuel : Nat)
    (tryAt : Option Char → Str → Option (Nat × Str)) (prev : Option Char)
    (c : Char) (rest : Str) (h : tryAt prev (c :: rest) = none) :
    replaceAllGo (fuel + 1) tryAt prev (c :: rest) =
      c :: replaceAllGo fuel tryAt (some c) rest := by
  rw [replaceAllGo_succ, h]

/-- For a sane matcher the driver's result does not depend on the fuel once
the fuel exceeds the input length. -/
theorem replaceAllGo_fuel (tryAt : Option Char → Str → Option (Nat × Str))
    (hsane : TrySane tryAt) (L : Nat) :
    ∀ (s : Str) (prev : Option Char) (fuel1 fuel2 : Nat), s.length ≤ L →
      s.length < fuel1 → s.length < fuel2 →
      replaceAllGo fuel1 tryAt prev s = replaceAllGo fuel2 tryAt prev s := by
  induction L with
  | zero =>
    intro s prev fuel1 fuel2 hL h1 h2
    have hs : s = [] := List.length_eq_zero.mp (Nat.le_zero.mp hL)
    subst hs
    obtain ⟨f1, rfl⟩ : ∃ k, fuel1 = k + 1 := ⟨fuel1 - 1, by omega⟩
    obtain ⟨f2, rfl⟩ : ∃ k, fuel2 = k + 1 := ⟨fuel2 - 1, by omega⟩
    cases htry : tryAt prev [] with
    | some v =>
      obtain ⟨n, rep⟩ := v
      obtain ⟨hn1, hn2⟩ := hsane prev [] n rep htry
      simp at hn2
      omega
    | none =>
      rw [replaceAllGo_succ_none_nil f1 _ _ htry, replaceAllGo_succ_none_nil f2 _ _ htry]
  | succ L ih =>
    intro s prev fuel1 fuel2 hL h1 h2
    obtain ⟨f1, rfl⟩ : ∃ k, fuel1 = k + 1 := ⟨fuel1 - 1, by omega⟩
    obtain ⟨f2, rfl⟩ : ∃ k, fuel2 = k + 1 := ⟨fuel2 - 1, by omega⟩
    cases htry : tryAt prev s with
    | some v =>
      obtain ⟨n, rep⟩ := v
      obtain ⟨hn1, hn2⟩ := hsane prev s n rep htry
      have hne : ¬(n = 0) := by omega
      rw [replaceAllGo_succ_some f1 _ _ _ _ _ htry,
        replaceAllGo_succ_some f2 _ _ _ _ _ htry, if_neg hne, if_neg hne,
        ih (s.drop n) _ f1 f2 (by rw [List.length_drop]; omega)
          (by rw [List.length_drop]; omega) (by rw [List.length_drop]; omega)]
    | none =>
      cases s with
      | nil =>
        rw [replaceAllGo_succ_none_nil f1 _ _ htry, replaceAllGo_succ_none_nil f2 _ _ htry]
      | cons c rest =>
        rw [replaceAllGo_succ_none_cons f1 _ _ _ _ htry,
          replaceAllGo_succ_none_cons f2 _ _ _ _ htry,
          ih rest (some c) f1 f2 (by simp at hL; omega) (by simp at h1; omega)
            (by simp at h2; omega)]

/-- Driver skip lemma: over a region where the matcher fails at every
position (whatever precedes and follows), the driver copies the region
verbatim, consuming exactly its length in fuel. -/
theorem replaceAllGo_skip (tryAt : Option Char → Str → Option (Nat × Str)) :
    ∀ (a b : Str) (prev : Option Char) (fuel : Nat),
      (∀ i (prev' : Option Char), i < a.length → tryAt prev' (a.drop i ++ b) = none) →
      replaceAllGo (a.length + fuel) tryAt prev (a ++ b) =
        a ++ replaceAllGo fuel tryAt (lastO prev a) b := by
  intro a
  induction a with
  | nil =>
    intro b prev fuel _
    simp [lastO]
  | cons c a' ih =>
    intro b prev fuel h
    have hlen : (c :: a').length + fuel = (a'.length + fuel) + 1 := by
      simp; omega
    rw [hlen]
    have h0 : tryAt prev (c :: (a' ++ b)) = none := by
      have := h 0 prev (by simp)
      simpa using this
    rw [List.cons_append, replaceAllGo_succ_none_cons _ _ _ _ _ h0]
    rw [ih b (some c) fuel fun i prev' hi => by
      have := h (i + 1) prev' (by simp; omega)
      simpa using this]
    rw [lastO_cons]
    rfl

/-- Driver token lemma: a successful match at the head emits the
replacement and continues after the consumed token. -/
theorem replaceAllGo_token (tryAt : Option Char → Str → Option (Nat × Str))
    (tok rep rest : Str) (prev : Option Char) (fuel : Nat) (htok : tok ≠ [])
    (hm : tryAt prev (tok ++ rest) = some (tok.length, rep)) :
    replaceAllGo (fuel + 1) tryAt prev (tok ++ rest) =
      rep ++ replaceAllGo fuel tryAt (lastO prev tok) rest := by
  rw [replaceAllGo_succ_some _ _ _ _ _ _ hm]
  have hne : ¬(tok.length = 0) := by
    simpa using fun hh => htok (List.length_eq_zero.mp hh)
  rw [if_neg hne, List.take_left, List.drop_left, lastO_of_ne_nil _ _ htok]

/-- A region on which a matcher can never start a match, whatever precedes
or follows. -/
def NoMatchOn (tryAt : Option Char → Str → Option (Nat × Str)) (x : Str) : Prop :=
  ∀ i (prev : Option Char) (X : Str), i < x.length → tryAt prev (x.drop i ++ X) = none

/-- Match-free regions are closed under concatenation. -/
theorem NoMatchOn.append {tryAt : Option Char → Str → Option (Nat × Str)}
    {a b : Str} (ha : NoMatchOn tryAt a) (hb : NoMatchOn tryAt b) :
    NoMatchOn tryAt (a ++ b) := by
  intro i prev X hi
  by_cases hia : i < a.length
  · have hdrop : (a ++ b).drop i = a.drop i ++ b := List.drop_append_of_le_length (by omega)
    rw [hdrop, List.append_assoc]
    exact ha i prev (b ++ X) hia
  · obtain ⟨j, rfl⟩ : ∃ j, i = a.length + j := ⟨i - a.length, by omega⟩
    rw [List.drop_append]
    exact hb j prev X (by simp at hi; omega)

/-- The empty region is match-free. -/
theorem NoMatchOn.nil {tryAt : Option Char → Str → Option (Nat × Str)} :
    NoMatchOn tryAt [] := by
  intro i prev X hi
  simp at hi

/-- A match-free head position plus a match-free tail give a match-free
region. -/
theorem NoMatchOn.cons {tryAt : Option Char → Str → Option (Nat × Str)}
    {c : Char} {t : Str} (hc : ∀ prev X, tryAt prev (c :: t ++ X) = none)
    (ht : NoMatchOn tryAt t) : NoMatchOn tryAt (c :: t) := by
  intro i prev X hi
  cases i with
  | zero => simpa using hc prev X
  | succ j => exact ht j prev X (by simp at hi; omega)

/-- On a match-free input, global replacement is the identity. -/
theorem replaceAll_id (tryAt : Option Char → Str → Option (Nat × Str))
    (hsane : TrySane tryAt) (s : Str) (h : NoMatchOn tryAt s) :
    replaceAll tryAt s = s := by
  unfold replaceAll
  have hskip := replaceAllGo_skip tryAt s [] none 1
    (fun i prev' hi => by simpa using h i prev' [] hi)
  rw [List.append_nil] at hskip
  rw [hskip]
  have hstep : replaceAllGo 1 tryAt (lastO none s) [] = [] := by
    cases htry : tryAt (lastO none s) [] with
    | some v =>
      obtain ⟨n, rep⟩ := v
      obtain ⟨hh1, hh2⟩ := hsane _ _ n rep htry
      simp at hh2
      omega
    | none => exact replaceAllGo_succ_none_nil 0 _ _ htry
  rw [hstep, List.append_nil]

/-! Sanity and match/no-match facts for the four `import.meta` matchers. -/

/-- A successful `chompLit` drops exactly the literal. -/
theorem chompLit_some (l s t : Str) (h : chompLit l s = some t) :
    t = s.drop l.length ∧ l.length ≤ s.length := by
  unfold chompLit at h
  by_cases hp : l.isPrefixOf s
  · rw [if_pos hp] at h
    injection h with h
    refine ⟨h.symm, ?_⟩
    have htake := jsStartsWith_take s l hp
    have hlen := congrArg List.length htake
    rw [List.length_take] at hlen
    omega
  · rw [if_neg hp] at h
    exact absurd h (by simp)

/-- A successful head match consumes at least the twelve characters of
`import.meta.`. -/
theorem matchMetaHead_some (s rest : Str) (h : matchMetaHead s = some rest) :
    rest.length + 12 ≤ s.length := by
  unfold matchMetaHead at h
  obtain ⟨s1, h1, h⟩ := Option.bind_eq_some.mp h
  obtain ⟨s3, h2, h⟩ := Option.bind_eq_some.mp h
  obtain ⟨s5, h3, h⟩ := Option.bind_eq_some.mp h
  obtain ⟨s7, h4, h⟩ := Option.map_eq_some'.mp h
  obtain ⟨he1, hl1⟩ := chompLit_some _ _ _ h1
  obtain ⟨he2, hl2⟩ := chompLit_some _ _ _ h2
  obtain ⟨he3, hl3⟩ := chompLit_some _ _ _ h3
  obtain ⟨he4, hl4⟩ := chompLit_some _ _ _ h4
  have d1 : (s1.dropWhile wsChar).length ≤ s1.length :=
    (List.dropWhile_sublist wsChar).length_le
  have d3 : (s5.dropWhile wsChar).length ≤ s5.length :=
    (List.dropWhile_sublist wsChar).length_le
  have hrest : rest.length ≤ s7.length := by
    rw [← h]
    exact (List.dropWhile_sublist wsChar).length_le
  have c6 : ("import".toList).length = 6 := rfl
  have c4 : ("meta".toList).length = 4 := rfl
  have c1 : (['.'] : Str).length = 1 := rfl
  have e1 : s1.length = s.length - ("import".toList).length := by
    rw [he1, List.length_drop]
  have e2 : s3.length = (s1.dropWhile wsChar).length - (['.'] : Str).length := by
    rw [he2, List.length_drop]
  have e3 : s5.length = (s3.dropWhile wsChar).length - ("meta".toList).length := by
    rw [he3, List.length_drop]
  have e4 : s7.length = (s5.dropWhile wsChar).length - (['.'] : Str).length := by
    rw [he4, List.length_drop]
  have d2 : (s3.dropWhile wsChar).length ≤ s3.length :=
    (List.dropWhile_sublist wsChar).length_le
  omega

/-- The property matchers are sane. -/
theorem tryMetaProp_sane (prop rep : Str) : TrySane (tryMetaProp prop rep) := by
  intro prev s n r h
  unfold tryMetaProp at h
  by_cases hb : boundaryOk prev = true
  · rw [if_pos hb] at h
    cases h1 : matchMetaHead s with
    | none => rw [h1] at h; simp at h
    | some rest =>
      rw [h1] at h
      simp only [Option.some_bind] at h
      cases h2 : chompLit prop rest with
      | none => rw [h2] at h; simp at h
      | some rest2 =>
        rw [h2] at h
        simp only [Option.some_bind] at h
        have hm := matchMetaHead_some s rest h1
        obtain ⟨he2, _⟩ := chompLit_some _ _ _ h2
        have hr2 : rest2.length ≤ rest.length := by
          rw [he2, List.length_drop]; omega
        have hgoal : n = s.length - rest2.length → 1 ≤ n ∧ n ≤ s.length := by
          intro hn
          omega
        cases rest2 with
        | nil =>
          simp only at h
          injection h with h
          exact hgoal (congrArg Prod.fst h).symm
        | cons c t =>
          simp only at h
          by_cases hw : wordChar c = true
          · rw [if_pos hw] at h; simp at h
          · rw [if_neg hw] at h
            injection h with h
            exact hgoal (congrArg Prod.fst h).symm
  · rw [if_neg hb] at h
    simp at h

/-- The resolve matcher is sane. -/
theorem tryMetaResolve_sane (esc : Str) : TrySane (tryMetaResolve esc) := by
  intro prev s n r h
  unfold tryMetaResolve at h
  by_cases hb : boundaryOk prev = true
  · rw [if_pos hb] at h
    cases h1 : matchMetaHead s with
    | none => rw [h1] at h; simp at h
    | some rest =>
      rw [h1] at h
      simp only [Option.some_bind] at h
      cases h2 : chompLit "resolve".toList rest with
      | none => rw [h2] at h; simp at h
      | some rest2 =>
        rw [h2] at h
        simp only [Option.some_bind] at h
        cases h3 : chompLit ['('] (rest2.dropWhile wsChar) with
        | none => rw [h3] at h; simp at h
        | some rest3 =>
          rw [h3] at h
          simp only [Option.some_bind] at h
          by_cases hin : (rest3.takeWhile fun c => c ≠ ')').isEmpty = true
          · rw [if_pos hin] at h; simp at h
          · rw [if_neg hin] at h
            cases h4 : rest3.drop (rest3.takeWhile fun c => c ≠ ')').length with
            | nil => rw [h4] at h; simp at h
            | cons c t =>
              rw [h4] at h
              simp only at h
              injection h with h
              have hn := (congrArg Prod.fst h).symm
              simp only at hn
              have hm := matchMetaHead_some s rest h1
              obtain ⟨he2, hl2⟩ := chompLit_some _ _ _ h2
              obtain ⟨he3, hl3⟩ := chompLit_some _ _ _ h3
              have hr2 : rest2.length ≤ rest.length := by
                rw [he2, List.length_drop]; omega
              have hr3 : rest3.length ≤ rest2.length := by
                have hd : (rest2.dropWhile wsChar).length ≤ rest2.length :=
                  (List.dropWhile_sublist wsChar).length_le
                rw [he3, List.length_drop]
                omega
              have hinlt : (rest3.takeWhile fun c => c ≠ ')').length < rest3.length := by
                have htw : (rest3.takeWhile fun c => c ≠ ')').length ≤ rest3.length :=
                  (List.takeWhile_sublist _).length_le
                have hfact := congrArg List.length h4
                rw [List.length_drop, List.length_cons] at hfact
                omega
              omega
  · rw [if_neg hb] at h
    simp at h

/-- When the input does not begin with `import`, no property matcher fires. -/
theorem tryMetaProp_none_of_no_import (prop rep : Str) (prev : Option Char) (s : Str)
    (h : "import".toList.isPrefixOf s = false) : tryMetaProp prop rep prev s = none := by
  have hmh : matchMetaHead s = none := by
    unfold matchMetaHead chompLit
    rw [h]
    simp
  by_cases hb : boundaryOk prev = true <;> simp [tryMetaProp, hmh, hb]

/-- When the input does not begin with `import`, the resolve matcher fails. -/
theorem tryMetaResolve_none_of_no_import (esc : Str) (prev : Option Char) (s : Str)
    (h : "import".toList.isPrefixOf s = false) : tryMetaResolve esc prev s = none := by
  have hmh : matchMetaHead s = none := by
    unfold matchMetaHead chompLit
    rw [h]
    simp
  by_cases hb : boundaryOk prev = true <;> simp [tryMetaResolve, hmh, hb]

/-- After `import.meta.` a non-whitespace character other than the first
character of the property kills the property matcher. -/
theorem tryMetaProp_mismatch (p0 : Char) (prest rep : Str) (prev : Option Char)
    (c : Char) (t : Str) (hws : wsChar c = false) (hne : c ≠ p0) :
    tryMetaProp (p0 :: prest) rep prev ("import.meta.".toList ++ c :: t) = none := by
  have hd : wsChar '.' = false := rfl
  have hm : wsChar 'm' = false := rfl
  have hmh : matchMetaHead ("import.meta.".toList ++ c :: t) = some (c :: t) := by
    simp [matchMetaHead, chompLit, List.isPrefixOf, List.dropWhile_cons, hd, hm, hws]
  have hch : chompLit (p0 :: prest) (c :: t) = none := by
    simp [chompLit, List.isPrefixOf]
    intro hq
    exact absurd hq.symm hne
  unfold tryMetaProp
  rw [hmh]
  by_cases hb : boundaryOk prev = true
  · rw [if_pos hb]
    simp [hch]
  · rw [if_neg hb]

/-- After `import.meta.` a non-whitespace character other than `r` kills the
resolve matcher. -/
theorem tryMetaResolve_mismatch (esc : Str) (prev : Option Char)
    (c : Char) (t : Str) (hws : wsChar c = false) (hne : c ≠ 'r') :
    tryMetaResolve esc prev ("import.meta.".toList ++ c :: t) = none := by
  have hd : wsChar '.' = false := rfl
  have hm : wsChar 'm' = false := rfl
  have hmh : matchMetaHead ("import.meta.".toList ++ c :: t) = some (c :: t) := by
    simp [matchMetaHead, chompLit, List.isPrefixOf, List.dropWhile_cons, hd, hm, hws]
  have hch : chompLit "resolve".toList (c :: t) = none := by
    simp [chompLit, List.isPrefixOf]
    intro hq
    exact absurd hq.symm hne
  unfold tryMetaResolve
  rw [hmh]
  by_cases hb : boundaryOk prev = true
  · rw [if_pos hb]
    simp only [Option.some_bind]
    rw [hch]
    rfl
  · rw [if_neg hb]

/-- Head-of-input test for a following word character. -/
def headNonWord (s : Str) : Bool :=
  match s with
  | [] => true
  | c :: _ => !wordChar c

/-- The `url` matcher at a canonical token. -/
theorem tryMetaProp_url_token (rep : Str) (prev : Option Char) (s : Str)
    (hb : boundaryOk prev = true) (hs : headNonWord s = true) :
    tryMetaProp "url".toList rep prev ("import.meta.url".toList ++ s) =
      some (15, rep) := by
  have hmh : matchMetaHead ("import.meta.url".toList ++ s) =
      some ("url".toList ++ s) := by
    simp [matchMetaHead, chompLit, List.isPrefixOf, wsChar]
  have hch : chompLit "url".toList ("url".toList ++ s) = some s := by
    simp [chompLit, List.isPrefixOf]
  unfold tryMetaProp
  rw [if_pos hb, hmh]
  simp only [Option.some_bind, hch]
  cases s with
  | nil => simp
  | cons c t =>
    simp only [headNonWord] at hs
    simp only [Bool.not_eq_true'] at hs
    simp [hs, List.length_append]

/-- The `filename` matcher at a canonical token. -/
theorem tryMetaProp_filename_token (rep : Str) (prev : Option Char) (s : Str)
    (hb : boundaryOk prev = true) (hs : headNonWord s = true) :
    tryMetaProp "filename".toList rep prev ("import.meta.filename".toList ++ s) =
      some (20, rep) := by
  have hmh : matchMetaHead ("import.meta.filename".toList ++ s) =
      some ("filename".toList ++ s) := by
    simp [matchMetaHead, chompLit, List.isPrefixOf, wsChar]
  have hch : chompLit "filename".toList ("filename".toList ++ s) = some s := by
    simp [chompLit, List.isPrefixOf]
  unfold tryMetaProp
  rw [if_pos hb, hmh]
  simp only [Option.some_bind, hch]
  cases s with
  | nil => simp
  | cons c t =>
    simp only [headNonWord] at hs
    simp only [Bool.not_eq_true'] at hs
    simp [hs, List.length_append]

/-- The `dirname` matcher at a canonical token. -/
theorem tryMetaProp_dirname_token (rep : Str) (prev : Option Char) (s : Str)
    (hb : boundaryOk prev = true) (hs : headNonWord s = true) :
    tryMetaProp "dirname".toList rep prev ("import.meta.dirname".toList ++ s) =
      some (19, rep) := by
  have hmh : matchMetaHead ("import.meta.dirname".toList ++ s) =
      some ("dirname".toList ++ s) := by
    simp [matchMetaHead, chompLit, List.isPrefixOf, wsChar]
  have hch : chompLit "dirname".toList ("dirname".toList ++ s) = some s := by
    simp [chompLit, List.isPrefixOf]
  unfold tryMetaProp
  rw [if_pos hb, hmh]
  simp only [Option.some_bind, hch]
  cases s with
  | nil => simp
  | cons c t =>
    simp only [headNonWord] at hs
    simp only [Bool.not_eq_true'] at hs
    simp [hs, List.length_append]

/-- `takeWhile` runs through a segment that satisfies the predicate. -/
theorem takeWhile_all_append (p : Char → Bool) (a b : Str) (h : a.all p = true) :
    (a ++ b).takeWhile p = a ++ b.takeWhile p := by
  induction a with
  | nil => simp
  | cons c t ih =>
    simp only [List.all_cons, Bool.and_eq_true] at h
    simp [List.takeWhile_cons, h.1, ih h.2]

/-- C2: with the import map `{"@utils/": "./src/utils/"}` the specifier
`@utils/a.ts` is returned unchanged: the code's match condition is
`specifier === key || specifier.startsWith(key + "/")`, and
`"@utils/a.ts"` does not start with `"@utils//"`, so the claimed
trailing-slash prefix resolution to `./src/utils/a.ts` does not happen. -/
theorem C2_prefix_match_failing_input :
    applyImportMapToSpecifier [("@utils/".toList, "./src/utils/".toList)] []
      "file:///app/main.ts".toList "@utils/a.ts".toList = "@utils/a.ts".toList ∧
    "@utils/a.ts".toList ≠ "./src/utils/a.ts".toList := by
  constructor
  · rfl
  · decide

/-! ### `replaceImportMeta` (src/replace_import_meta.ts) -/

/-- `JSON.stringify(x).slice(1, -1)`: drop the first and last character. -/
def sliceQuotes (s : Str) : Str := (s.drop 1).dropLast

/-- Dropping the two quotes of `JSON.stringify` leaves the escaped body. -/
theorem sliceQuotes_quoteStr (s : Str) : sliceQuotes (quoteStr s) = escStr s := by
  simp [sliceQuotes, quoteStr]

/-- `replaceImportMeta` of src/replace_import_meta.ts.  The platform
primitives `fromFileUrl` (of `@std/path/from-file-url`) and `pathDirname`
(of `@std/path/dirname`) are parameters.  The four regex replacements run
in sequence; the `filename`/`dirname` passes are guarded by the JavaScript
truthiness of the escaped path strings, which are empty unless the
original URL is a `file://` URL. -/
def replaceImportMeta (fromFileUrl pathDirname : Str → Str)
    (sourceCode originalUrl : Str) : Str :=
  let escapedUrl := sliceQuotes (quoteStr originalUrl)
  let filename := if jsStartsWith originalUrl "file://".toList
    then sliceQuotes (quoteStr (fromFileUrl originalUrl)) else []
  let dirname := if jsStartsWith originalUrl "file://".toList
    then sliceQuotes (quoteStr (pathDirname (fromFileUrl originalUrl))) else []
  let r1 := replaceAll (tryMetaProp "url".toList ('"' :: escapedUrl ++ ['"'])) sourceCode
  let r2 := if filename.isEmpty then r1
    else replaceAll (tryMetaProp "filename".toList ('"' :: filename ++ ['"'])) r1
  let r3 := if dirname.isEmpty then r2
    else replaceAll (tryMetaProp "dirname".toList ('"' :: dirname ++ ['"'])) r2
  replaceAll (tryMetaResolve escapedUrl) r3

/-- `createOriginalUrlComment` of src/replace_import_meta.ts. -/
def createOriginalUrlComment (originalUrl : Str) : Str :=
  "// Original source: ".toList ++ originalUrl ++
    ("\n// This file has been transformed by ImportMapImporter\n" ++
      "// import.meta.url, import.meta.filename, import.meta.dirname, " ++
      "and import.meta.resolve() have been replaced\n\n").toList

/-- With no whitespace after the head, `matchMetaHead` consumes exactly the
twelve characters of `import.meta.`. -/
theorem matchMetaHead_exact (c : Char) (t : Str) (hws : wsChar c = false) :
    matchMetaHead ("import.meta.".toList ++ c :: t) = some (c :: t) := by
  have hd : wsChar '.' = false := rfl
  have hm : wsChar 'm' = false := rfl
  simp [matchMetaHead, chompLit, List.isPrefixOf, List.dropWhile_cons, hd, hm, hws]

/-- No continuation can turn `y ++ _` into an occurrence of `import`:
either `y` is at least six characters and visibly not `import`-headed, or
`y` is shorter and not itself a prefix of `import`. -/
def noImportPrefixAt (y : Str) : Bool :=
  if 6 ≤ y.length then !("import".toList.isPrefixOf y)
  else !(y.isPrefixOf "import".toList)

theorem noImportPrefixAt_spec (y X : Str) (hy : noImportPrefixAt y = true) :
    "import".toList.isPrefixOf (y ++ X) = false := by
  unfold noImportPrefixAt at hy
  have h6 : ("import".toList).length = 6 := rfl
  by_cases hl : 6 ≤ y.length
  · rw [if_pos hl] at hy
    simp only [Bool.not_eq_true'] at hy
    cases hc : "import".toList.isPrefixOf (y ++ X) with
    | false => rfl
    | true =>
      exfalso
      have hpre := List.isPrefixOf_iff_prefix.mp hc
      have heq := List.prefix_iff_eq_take.mp hpre
      rw [h6, List.take_append_of_le_length hl] at heq
      have hpy : "import".toList.isPrefixOf y = true :=
        List.isPrefixOf_iff_prefix.mpr (by rw [heq]; exact List.take_prefix 6 y)
      rw [hy] at hpy
      exact Bool.false_ne_true hpy
  · rw [if_neg hl] at hy
    simp only [Bool.not_eq_true'] at hy
    cases hc : "import".toList.isPrefixOf (y ++ X) with
    | false => rfl
    | true =>
      exfalso
      obtain ⟨t, ht⟩ := List.isPrefixOf_iff_prefix.mp hc
      have h1 : (y ++ X).take y.length = y := List.take_left y X
      have h2 : ("import".toList ++ t).take y.length =
          ("import".toList).take y.length :=
        List.take_append_of_le_length (by omega)
      rw [ht, h1] at h2
      have hpy : y.isPrefixOf "import".toList = true :=
        List.isPrefixOf_iff_prefix.mpr (by rw [h2]; exact List.take_prefix _ _)
      rw [hy] at hpy
      exact Bool.false_ne_true hpy

/-- Decidable check that no position of `s` can start an occurrence of
`import`, whatever follows. -/
def cleanSeg (s : Str) : Bool :=
  (List.range s.length).all fun i => noImportPrefixAt (s.drop i)

/-- The corresponding semantic property. -/
def ImportFree (x : Str) : Prop :=
  ∀ i (X : Str), i < x.length → "import".toList.isPrefixOf (x.drop i ++ X) = false

theorem cleanSeg_importFree (s : Str) (h : cleanSeg s = true) : ImportFree s :=
  fun i X hi =>
    noImportPrefixAt_spec _ _ ((List.all_eq_true.mp h) i (List.mem_range.mpr hi))

theorem importFree_append {a b : Str} (ha : ImportFree a) (hb : ImportFree b) :
    ImportFree (a ++ b) := by
  intro i X hi
  by_cases hia : i < a.length
  · have hdrop : (a ++ b).drop i = a.drop i ++ b := List.drop_append_of_le_length (by omega)
    rw [hdrop, List.append_assoc]
    exact ha i (b ++ X) hia
  · obtain ⟨j, rfl⟩ : ∃ j, i = a.length + j := ⟨i - a.length, by omega⟩
    rw [List.drop_append]
    exact hb j X (by simp at hi; omega)

/-- Import-free regions are match-free for every property matcher. -/
theorem importFree_noMatch_prop (prop rep : Str) (s : Str) (h : ImportFree s) :
    NoMatchOn (tryMetaProp prop rep) s :=
  fun i prev X hi => tryMetaProp_none_of_no_import _ _ _ _ (h i X hi)

/-- Import-free regions are match-free for the resolve matcher. -/
theorem importFree_noMatch_resolve (esc : Str) (s : Str) (h : ImportFree s) :
    NoMatchOn (tryMetaResolve esc) s :=
  fun i prev X hi => tryMetaResolve_none_of_no_import _ _ _ (h i X hi)

/-- A token `import.meta.<c…>` whose first property character does not
match the property is match-free for that property matcher, provided its
tail is import-free. -/
theorem token_noMatch_prop (p0 : Char) (pr rep : Str) (c : Char) (t : Str)
    (hws : wsChar c = false) (hne : c ≠ p0)
    (htail : ImportFree ("mport.meta.".toList ++ c :: t)) :
    NoMatchOn (tryMetaProp (p0 :: pr) rep) ("import.meta.".toList ++ c :: t) := by
  intro i prev X hi
  cases i with
  | zero =>
    simp only [List.drop_zero, List.append_assoc, List.cons_append]
    exact tryMetaProp_mismatch p0 pr rep prev c (t ++ X) hws hne
  | succ j =>
    apply tryMetaProp_none_of_no_import
    have hstep : ("import.meta.".toList ++ c :: t).drop (j + 1) =
        ("mport.meta.".toList ++ c :: t).drop j := rfl
    rw [hstep]
    refine htail j X ?_
    have hi' := hi
    simp only [List.length_append, List.length_cons] at hi' ⊢
    have h12 : ("import.meta.".toList).length = 12 := rfl
    have h11 : ("mport.meta.".toList).length = 11 := rfl
    omega

/-- The same for the resolve matcher: a token whose first property
character is not `r` is match-free for it. -/
theorem token_noMatch_resolve (esc : Str) (c : Char) (t : Str)
    (hws : wsChar c = false) (hne : c ≠ 'r')
    (htail : ImportFree ("mport.meta.".toList ++ c :: t)) :
    NoMatchOn (tryMetaResolve esc) ("import.meta.".toList ++ c :: t) := by
  intro i prev X hi
  cases i with
  | zero =>
    simp only [List.drop_zero, List.append_assoc, List.cons_append]
    exact tryMetaResolve_mismatch esc prev c (t ++ X) hws hne
  | succ j =>
    apply tryMetaResolve_none_of_no_import
    have hstep : ("import.meta.".toList ++ c :: t).drop (j + 1) =
        ("mport.meta.".toList ++ c :: t).drop j := rfl
    rw [hstep]
    refine htail j X ?_
    have hi' := hi
    simp only [List.length_append, List.length_cons] at hi' ⊢
    have h12 : ("import.meta.".toList).length = 12 := rfl
    have h11 : ("mport.meta.".toList).length = 11 := rfl
    omega

/-- Interleave segments with a fixed token:
`s0 · tok · s1 · tok · … · sn` (tokens strictly between segments). -/
def weave (tok : Str) : List Str → Str
  | [] => []
  | [s] => s
  | s :: rest => s ++ (tok ++ weave tok rest)

theorem weave_nil (tok : Str) : weave tok [] = [] := rfl

theorem weave_single (tok s : Str) : weave tok [s] = s := rfl

theorem weave_cons₂ (tok s r : Str) (rest : List Str) :
    weave tok (s :: r :: rest) = s ++ (tok ++ weave tok (r :: rest)) := rfl

/-- Boundary conditions making every interleaved token a regex match: the
character before each token passes the leading `\b`, and the text after it
passes the trailing check. -/
def segsOk (tok : Str) : Option Char → List Str → Bool
  | _, [] => true
  | _, [_] => true
  | prev, s :: rest =>
    boundaryOk (lastO prev s) && headNonWord (weave tok rest) &&
      segsOk tok (lastO (lastO prev s) tok) rest

theorem segsOk_cons₂ (tok s r : Str) (rest : List Str) (prev : Option Char) :
    segsOk tok prev (s :: r :: rest) =
      (boundaryOk (lastO prev s) && headNonWord (weave tok (r :: rest)) &&
        segsOk tok (lastO (lastO prev s) tok) (r :: rest)) := rfl

/-- A weave of match-free pieces is match-free. -/
theorem NoMatchOn_weave {tryAt : Option Char → Str → Option (Nat × Str)}
    {rep : Str} (hrep : NoMatchOn tryAt rep) :
    ∀ segs : List Str, (∀ s ∈ segs, NoMatchOn tryAt s) →
      NoMatchOn tryAt (weave rep segs)
  | [], _ => NoMatchOn.nil
  | [s], h => by
    have := h s (by simp)
    simpa [weave_single] using this
  | s :: r :: rest, h => by
    have h1 : NoMatchOn tryAt s := h s (by simp)
    have h2 : NoMatchOn tryAt (weave rep (r :: rest)) :=
      NoMatchOn_weave hrep (r :: rest)
        (fun x hx => h x (List.mem_cons_of_mem _ hx))
    rw [weave_cons₂]
    exact h1.append (hrep.append h2)

/-- A weave of import-free pieces is import-free. -/
theorem ImportFree_weave {rep : Str} (hrep : ImportFree rep) :
    ∀ segs : List Str, (∀ s ∈ segs, ImportFree s) →
      ImportFree (weave rep segs)
  | [], _ => by intro i X hi; simp [weave_nil] at hi
  | [s], h => by
    have := h s (by simp)
    simpa [weave_single] using this
  | s :: r :: rest, h => by
    have h1 : ImportFree s := h s (by simp)
    have h2 : ImportFree (weave rep (r :: rest)) :=
      ImportFree_weave hrep (r :: rest)
        (fun x hx => h x (List.mem_cons_of_mem _ hx))
    rw [weave_cons₂]
    exact importFree_append h1 (importFree_append hrep h2)

/-- At fuel one and empty input a sane matcher leaves the input alone. -/
theorem replaceAllGo_one_nil (tryAt : Option Char → Str → Option (Nat × Str))
    (hsane : TrySane tryAt) (prev : Option Char) :
    replaceAllGo 1 tryAt prev [] = [] := by
  cases htry : tryAt prev [] with
  | some v =>
    obtain ⟨n, r⟩ := v
    obtain ⟨h1, h2⟩ := hsane _ _ _ _ htry
    simp at h2
    omega
  | none => exact replaceAllGo_succ_none_nil 0 _ _ htry

/-- The driver turns a well-interleaved source into the same interleaving
with every token replaced. -/
theorem replaceAllGo_weave (tryAt : Option Char → Str → Option (Nat × Str))
    (hsane : TrySane tryAt) (tok rep : Str) (htok : tok ≠ [])
    (hmatch : ∀ (prev : Option Char) (X : Str), boundaryOk prev = true →
      headNonWord X = true → tryAt prev (tok ++ X) = some (tok.length, rep)) :
    ∀ (segs : List Str) (prev : Option Char),
      (∀ s ∈ segs, NoMatchOn tryAt s) → segsOk tok prev segs = true →
      replaceAllGo ((weave tok segs).length + 1) tryAt prev (weave tok segs) =
        weave rep segs := by
  intro segs
  induction segs with
  | nil =>
    intro prev _ _
    exact replaceAllGo_one_nil tryAt hsane prev
  | cons s rest ih =>
    intro prev hnm hok
    cases rest with
    | nil =>
      rw [weave_single, weave_single]
      have hs := hnm s (by simp)
      have hskip := replaceAllGo_skip tryAt s [] prev 1
        (fun i prev' hi => by simpa using hs i prev' [] hi)
      rw [List.append_nil] at hskip
      rw [hskip, replaceAllGo_one_nil tryAt hsane _, List.append_nil]
    | cons r2 rest2 =>
      rw [weave_cons₂, weave_cons₂]
      rw [segsOk_cons₂] at hok
      simp only [Bool.and_eq_true] at hok
      obtain ⟨⟨hb, hh⟩, hrest⟩ := hok
      have hs := hnm s (by simp)
      have hlen : (s ++ (tok ++ weave tok (r2 :: rest2))).length + 1 =
          s.length + (tok.length + ((weave tok (r2 :: rest2)).length + 1)) := by
        simp [List.length_append]
        omega
      rw [hlen]
      rw [replaceAllGo_skip tryAt s (tok ++ weave tok (r2 :: rest2)) prev
        (tok.length + ((weave tok (r2 :: rest2)).length + 1))
        (fun i prev' hi => by simpa using hs i prev' (tok ++ weave tok (r2 :: rest2)) hi)]
      have hf : tok.length + ((weave tok (r2 :: rest2)).length + 1) =
          (tok.length + (weave tok (r2 :: rest2)).length) + 1 := by omega
      rw [hf]
      rw [replaceAllGo_token tryAt tok rep (weave tok (r2 :: rest2)) (lastO prev s)
        (tok.length + (weave tok (r2 :: rest2)).length) htok
        (hmatch (lastO prev s) (weave tok (r2 :: rest2)) hb hh)]
      have htl : 1 ≤ tok.length := by
        cases tok with
        | nil => exact absurd rfl htok
        | cons a b => simp
      rw [replaceAllGo_fuel tryAt hsane (weave tok (r2 :: rest2)).length
        (weave tok (r2 :: rest2)) (lastO (lastO prev s) tok)
        (tok.length + (weave tok (r2 :: rest2)).length)
        ((weave tok (r2 :: rest2)).length + 1) le_rfl (by omega) (by omega)]
      rw [ih (lastO (lastO prev s) tok)
        (fun x hx => hnm x (List.mem_cons_of_mem _ hx)) hrest]

/-- Global replacement over a well-interleaved source replaces exactly the
tokens. -/
theorem replaceAll_weave (tryAt : Option Char → Str → Option (Nat × Str))
    (hsane : TrySane tryAt) (tok rep : Str) (htok : tok ≠ [])
    (hmatch : ∀ (prev : Option Char) (X : Str), boundaryOk prev = true →
      headNonWord X = true → tryAt prev (tok ++ X) = some (tok.length, rep))
    (segs : List Str) (hnm : ∀ s ∈ segs, NoMatchOn tryAt s)
    (hok : segsOk tok none segs = true) :
    replaceAll tryAt (weave tok segs) = weave rep segs :=
  replaceAllGo_weave tryAt hsane tok rep htok hmatch segs none hnm hok

/-- `takeWhile` stops inside a segment that contains a failing character. -/
theorem takeWhile_not_all_append (p : Char → Bool) (a b : Str) (h : a.all p = false) :
    (a ++ b).takeWhile p = a.takeWhile p := by
  induction a with
  | nil => simp at h
  | cons c t ih =>
    by_cases hc : p c = true
    · simp only [List.all_cons, hc, Bool.true_and] at h
      rw [List.cons_append, List.takeWhile_cons, if_pos hc, List.takeWhile_cons,
        if_pos hc, ih h]
    · have hc' : ¬(p c = true) := hc
      rw [List.cons_append, List.takeWhile_cons, if_neg hc', List.takeWhile_cons,
        if_neg hc']

/-- When some character fails the predicate, the `takeWhile` run is a
proper prefix. -/
theorem takeWhile_length_lt_not_all (p : Char → Bool) (a : Str) (h : a.all p = false) :
    (a.takeWhile p).length < a.length := by
  induction a with
  | nil => simp at h
  | cons c t ih =>
    by_cases hc : p c = true
    · simp only [List.all_cons, hc, Bool.true_and] at h
      rw [List.takeWhile_cons, if_pos hc]
      simp only [List.length_cons]
      have := ih h
      omega
    · rw [List.takeWhile_cons, if_neg hc]
      simp

/-- `dropWhile` ignores a leading all-satisfying segment. -/
theorem dropWhile_all_append (p : Char → Bool) (a b : Str)
    (h : ∀ x ∈ a, p x = true) :
    (a ++ b).dropWhile p = b.dropWhile p := by
  induction a with
  | nil => rfl
  | cons c t ih =>
    rw [List.cons_append, List.dropWhile_cons, if_pos (h c (by simp))]
    exact ih (fun x hx => h x (by simp [hx]))

/-- Dropping at most the whitespace run commutes with `dropWhile`. -/
theorem dropWhile_drop_ws (p : Char → Bool) (arg : Str) (k : Nat)
    (hk : k ≤ (arg.takeWhile p).length) :
    (arg.drop k).dropWhile p = arg.dropWhile p := by
  have hsplit : arg = arg.takeWhile p ++ arg.dropWhile p :=
    (List.takeWhile_append_dropWhile p arg).symm
  nth_rewrite 1 [hsplit]
  rw [List.drop_append_of_le_length hk]
  rw [dropWhile_all_append p _ _
    (fun x hx => List.mem_takeWhile_imp (List.mem_of_mem_drop hx))]
  exact List.dropWhile_idempotent p arg

/-- `trim` is unchanged by first dropping part of the leading whitespace. -/
theorem jsTrim_drop_ws (arg : Str) (k : Nat)
    (hk : k ≤ (arg.takeWhile wsChar).length) :
    jsTrim (arg.drop k) = jsTrim arg := by
  unfold jsTrim
  rw [dropWhile_drop_ws wsChar arg k hk]

/-- The resolve matcher at a canonical call token
`import.meta.resolve(<arg>)`: it consumes the whole call and emits
`new URL(<trimmed arg>, "<escaped url>").href`. -/
theorem tryMetaResolve_token (esc arg : Str) (prev : Option Char) (X : Str)
    (hb : boundaryOk prev = true) (hne : arg ≠ [])
    (hnp : arg.all (fun c => c ≠ ')') = true)
    (hnw : arg.all wsChar = false) :
    tryMetaResolve esc prev ("import.meta.resolve(".toList ++ arg ++ ')' :: X) =
      some (("import.meta.resolve(".toList ++ arg ++ [')']).length,
        "new URL(".toList ++ jsTrim arg ++ ", \"".toList ++ esc ++
          "\").href".toList) := by
  have hshape : "import.meta.resolve(".toList ++ arg ++ ')' :: X =
      "import.meta.".toList ++ 'r' :: ("esolve(".toList ++ (arg ++ ')' :: X)) := rfl
  have hinner : (arg ++ ')' :: X).takeWhile (fun c => c ≠ ')') = arg := by
    rw [takeWhile_all_append _ _ _ hnp, List.takeWhile_cons]
    simp
  have hw : (arg ++ ')' :: X).takeWhile wsChar = arg.takeWhile wsChar :=
    takeWhile_not_all_append wsChar arg (')' :: X) hnw
  have hdropInner : (arg ++ ')' :: X).drop arg.length = ')' :: X :=
    List.drop_left arg _
  have hemp : arg.isEmpty = false := by
    cases arg with
    | nil => exact absurd rfl hne
    | cons a t => rfl
  unfold tryMetaResolve
  rw [if_pos hb, hshape, matchMetaHead_exact 'r' _ (by rfl)]
  simp only [Option.some_bind]
  have hch : chompLit "resolve".toList
      ('r' :: ("esolve(".toList ++ (arg ++ ')' :: X))) =
      some ('(' :: (arg ++ ')' :: X)) := by
    simp [chompLit, List.isPrefixOf]
  rw [hch]
  simp only [Option.some_bind]
  have hpo : List.dropWhile wsChar ('(' :: (arg ++ ')' :: X)) =
      '(' :: (arg ++ ')' :: X) := by
    rw [List.dropWhile_cons, if_neg (by decide)]
  have hch2 : chompLit ['('] ('(' :: (arg ++ ')' :: X)) =
      some (arg ++ ')' :: X) := by
    simp [chompLit, List.isPrefixOf]
  rw [hpo, hch2]
  simp only [Option.some_bind, hinner, hw, hdropInner, hemp, Bool.false_eq_true,
    if_false]
  rw [jsTrim_drop_ws arg _ (Nat.min_le_left _ _)]
  refine congrArg some (Prod.ext ?_ rfl)
  have l1 : ("import.meta.".toList).length = 12 := rfl
  have l2 : ("esolve(".toList).length = 7 := rfl
  have l3 : ("import.meta.resolve(".toList).length = 20 := rfl
  simp only [List.length_append, List.length_cons, List.length_nil, l1, l2, l3]
  omega

/-- A property pass is the identity on a match-free input. -/
theorem replaceAll_prop_of_noMatch (prop rep s : Str)
    (h : NoMatchOn (tryMetaProp prop rep) s) :
    replaceAll (tryMetaProp prop rep) s = s :=
  replaceAll_id _ (tryMetaProp_sane prop rep) s h

/-- The resolve pass is the identity on a match-free input. -/
theorem replaceAll_resolve_of_noMatch (esc s : Str)
    (h : NoMatchOn (tryMetaResolve esc) s) :
    replaceAll (tryMetaResolve esc) s = s :=
  replaceAll_id _ (tryMetaResolve_sane esc) s h

/-- `replaceImportMeta` on a weave of `import.meta.url` tokens: every token
becomes the quoted escaped original URL and nothing else changes. -/
theorem replaceImportMeta_url_weave (ffu pd : Str → Str) (url : Str)
    (hcu : cleanSeg ('"' :: escStr url ++ ['"']) = true)
    (segs : List Str) (hclean : segs.all cleanSeg = true)
    (hok : segsOk "import.meta.url".toList none segs = true) :
    replaceImportMeta ffu pd (weave "import.meta.url".toList segs) url =
      weave ('"' :: escStr url ++ ['"']) segs := by
  have hIF : ∀ s ∈ segs, ImportFree s := fun s hs =>
    cleanSeg_importFree s (List.all_eq_true.mp hclean s hs)
  have hresIF : ImportFree (weave ('"' :: escStr url ++ ['"']) segs) :=
    ImportFree_weave (cleanSeg_importFree _ hcu) segs hIF
  have hmatch : ∀ (prev : Option Char) (X : Str), boundaryOk prev = true →
      headNonWord X = true →
      tryMetaProp "url".toList ('"' :: escStr url ++ ['"']) prev
        ("import.meta.url".toList ++ X) =
        some (("import.meta.url".toList).length, '"' :: escStr url ++ ['"']) := by
    intro prev X hb hX
    rw [show ("import.meta.url".toList).length = 15 from rfl]
    exact tryMetaProp_url_token _ prev X hb hX
  have hpass1 : replaceAll (tryMetaProp "url".toList ('"' :: escStr url ++ ['"']))
      (weave "import.meta.url".toList segs) =
      weave ('"' :: escStr url ++ ['"']) segs :=
    replaceAll_weave _ (tryMetaProp_sane _ _) _ _ (by simp) hmatch segs
      (fun s hs => importFree_noMatch_prop _ _ _ (hIF s hs)) hok
  have hpassId : ∀ prop rep : Str,
      replaceAll (tryMetaProp prop rep) (weave ('"' :: escStr url ++ ['"']) segs) =
        weave ('"' :: escStr url ++ ['"']) segs := fun prop rep =>
    replaceAll_prop_of_noMatch _ _ _ (importFree_noMatch_prop _ _ _ hresIF)
  have hresId : replaceAll (tryMetaResolve (escStr url))
      (weave ('"' :: escStr url ++ ['"']) segs) =
      weave ('"' :: escStr url ++ ['"']) segs :=
    replaceAll_resolve_of_noMatch _ _ (importFree_noMatch_resolve _ _ hresIF)
  unfold replaceImportMeta
  simp only [sliceQuotes_quoteStr]
  rw [hpass1]
  simp only [hpassId, ite_self, hresId]

/-- For a `file://` URL with a non-empty escaped path, `replaceImportMeta`
on a weave of `import.meta.filename` tokens quotes the escaped path at
every token. -/
theorem replaceImportMeta_filename_weave (ffu pd : Str → Str) (url : Str)
    (hf : jsStartsWith url "file://".toList = true)
    (hfe : (escStr (ffu url)).isEmpty = false)
    (hcf : cleanSeg ('"' :: escStr (ffu url) ++ ['"']) = true)
    (segs : List Str) (hclean : segs.all cleanSeg = true)
    (hok : segsOk "import.meta.filename".toList none segs = true) :
    replaceImportMeta ffu pd (weave "import.meta.filename".toList segs) url =
      weave ('"' :: escStr (ffu url) ++ ['"']) segs := by
  have hIF : ∀ s ∈ segs, ImportFree s := fun s hs =>
    cleanSeg_importFree s (List.all_eq_true.mp hclean s hs)
  have htail : ImportFree ("mport.meta.".toList ++ 'f' :: "ilename".toList) :=
    cleanSeg_importFree _ (by decide)
  have hnm1 : NoMatchOn
      (tryMetaProp "url".toList ('"' :: escStr url ++ ['"']))
      "import.meta.filename".toList :=
    token_noMatch_prop 'u' "rl".toList _ 'f' "ilename".toList (by rfl) (by decide) htail
  have hsrcNM : NoMatchOn
      (tryMetaProp "url".toList ('"' :: escStr url ++ ['"']))
      (weave "import.meta.filename".toList segs) :=
    NoMatchOn_weave hnm1 segs
      (fun s hs => importFree_noMatch_prop _ _ _ (hIF s hs))
  have hpass1 : replaceAll (tryMetaProp "url".toList ('"' :: escStr url ++ ['"']))
      (weave "import.meta.filename".toList segs) =
      weave "import.meta.filename".toList segs :=
    replaceAll_prop_of_noMatch _ _ _ hsrcNM
  have hmatch : ∀ (prev : Option Char) (X : Str), boundaryOk prev = true →
      headNonWord X = true →
      tryMetaProp "filename".toList ('"' :: escStr (ffu url) ++ ['"']) prev
        ("import.meta.filename".toList ++ X) =
        some (("import.meta.filename".toList).length,
          '"' :: escStr (ffu url) ++ ['"']) := by
    intro prev X hb hX
    rw [show ("import.meta.filename".toList).length = 20 from rfl]
    exact tryMetaProp_filename_token _ prev X hb hX
  have hpass2 : replaceAll
      (tryMetaProp "filename".toList ('"' :: escStr (ffu url) ++ ['"']))
      (weave "import.meta.filename".toList segs) =
      weave ('"' :: escStr (ffu url) ++ ['"']) segs :=
    replaceAll_weave _ (tryMetaProp_sane _ _) _ _ (by simp) hmatch segs
      (fun s hs => importFree_noMatch_prop _ _ _ (hIF s hs)) hok
  have hresIF : ImportFree (weave ('"' :: escStr (ffu url) ++ ['"']) segs) :=
    ImportFree_weave (cleanSeg_importFree _ hcf) segs hIF
  have hpassId : ∀ prop rep : Str,
      replaceAll (tryMetaProp prop rep)
        (weave ('"' :: escStr (ffu url) ++ ['"']) segs) =
        weave ('"' :: escStr (ffu url) ++ ['"']) segs := fun prop rep =>
    replaceAll_prop_of_noMatch _ _ _ (importFree_noMatch_prop _ _ _ hresIF)
  have hresId : replaceAll (tryMetaResolve (escStr url))
      (weave ('"' :: escStr (ffu url) ++ ['"']) segs) =
      weave ('"' :: escStr (ffu url) ++ ['"']) segs :=
    replaceAll_resolve_of_noMatch _ _ (importFree_noMatch_resolve _ _ hresIF)
  have hfneg : ¬((escStr (ffu url)).isEmpty = true) := by
    rw [hfe]
    exact Bool.false_ne_true
  unfold replaceImportMeta
  simp only [sliceQuotes_quoteStr]
  rw [if_pos hf, if_pos hf, hpass1, if_neg hfneg, hpass2]
  simp only [hpassId, ite_self, hresId]

/-- For a non-`file://` URL, `replaceImportMeta` leaves a weave of
`import.meta.filename` tokens untouched. -/
theorem replaceImportMeta_filename_nonfile (ffu pd : Str → Str) (url : Str)
    (hf : jsStartsWith url "file://".toList = false)
    (segs : List Str) (hclean : segs.all cleanSeg = true) :
    replaceImportMeta ffu pd (weave "import.meta.filename".toList segs) url =
      weave "import.meta.filename".toList segs := by
  have hIF : ∀ s ∈ segs, ImportFree s := fun s hs =>
    cleanSeg_importFree s (List.all_eq_true.mp hclean s hs)
  have htail : ImportFree ("mport.meta.".toList ++ 'f' :: "ilename".toList) :=
    cleanSeg_importFree _ (by decide)
  have hnm1 : NoMatchOn
      (tryMetaProp "url".toList ('"' :: escStr url ++ ['"']))
      "import.meta.filename".toList :=
    token_noMatch_prop 'u' "rl".toList _ 'f' "ilename".toList (by rfl) (by decide) htail
  have hpass1 : replaceAll (tryMetaProp "url".toList ('"' :: escStr url ++ ['"']))
      (weave "import.meta.filename".toList segs) =
      weave "import.meta.filename".toList segs :=
    replaceAll_prop_of_noMatch _ _ _ (NoMatchOn_weave hnm1 segs
      (fun s hs => importFree_noMatch_prop _ _ _ (hIF s hs)))
  have hnmr : NoMatchOn (tryMetaResolve (escStr url))
      "import.meta.filename".toList :=
    token_noMatch_resolve _ 'f' "ilename".toList (by rfl) (by decide) htail
  have hpass4 : replaceAll (tryMetaResolve (escStr url))
      (weave "import.meta.filename".toList segs) =
      weave "import.meta.filename".toList segs :=
    replaceAll_resolve_of_noMatch _ _ (NoMatchOn_weave hnmr segs
      (fun s hs => importFree_noMatch_resolve _ _ (hIF s hs)))
  have hfneg : ¬(jsStartsWith url "file://".toList = true) := by
    rw [hf]
    exact Bool.false_ne_true
  unfold replaceImportMeta
  simp only [sliceQuotes_quoteStr]
  rw [if_neg hfneg, if_neg hfneg, hpass1]
  simp only [List.isEmpty_nil, if_true, hpass4]

/-- For a `file://` URL with a non-empty escaped directory,
`replaceImportMeta` on a weave of `import.meta.dirname` tokens quotes the
escaped directory at every token. -/
theorem replaceImportMeta_dirname_weave (ffu pd : Str → Str) (url : Str)
    (hf : jsStartsWith url "file://".toList = true)
    (hde : (escStr (pd (ffu url))).isEmpty = false)
    (hcd : cleanSeg ('"' :: escStr (pd (ffu url)) ++ ['"']) = true)
    (segs : List Str) (hclean : segs.all cleanSeg = true)
    (hok : segsOk "import.meta.dirname".toList none segs = true) :
    replaceImportMeta ffu pd (weave "import.meta.dirname".toList segs) url =
      weave ('"' :: escStr (pd (ffu url)) ++ ['"']) segs := by
  have hIF : ∀ s ∈ segs, ImportFree s := fun s hs =>
    cleanSeg_importFree s (List.all_eq_true.mp hclean s hs)
  have htail : ImportFree ("mport.meta.".toList ++ 'd' :: "irname".toList) :=
    cleanSeg_importFree _ (by decide)
  have hnm1 : NoMatchOn
      (tryMetaProp "url".toList ('"' :: escStr url ++ ['"']))
      "import.meta.dirname".toList :=
    token_noMatch_prop 'u' "rl".toList _ 'd' "irname".toList (by rfl) (by decide) htail
  have hpass1 : replaceAll (tryMetaProp "url".toList ('"' :: escStr url ++ ['"']))
      (weave "import.meta.dirname".toList segs) =
      weave "import.meta.dirname".toList segs :=
    replaceAll_prop_of_noMatch _ _ _ (NoMatchOn_weave hnm1 segs
      (fun s hs => importFree_noMatch_prop _ _ _ (hIF s hs)))
  have hIdF : ∀ rep : Str,
      replaceAll (tryMetaProp "filename".toList rep)
        (weave "import.meta.dirname".toList segs) =
        weave "import.meta.dirname".toList segs := fun rep =>
    replaceAll_prop_of_noMatch _ _ _ (NoMatchOn_weave
      (token_noMatch_prop 'f' "ilename".toList _ 'd' "irname".toList
        (by rfl) (by decide) htail) segs
      (fun s hs => importFree_noMatch_prop _ _ _ (hIF s hs)))
  have hmatch : ∀ (prev : Option Char) (X : Str), boundaryOk prev = true →
      headNonWord X = true →
      tryMetaProp "dirname".toList ('"' :: escStr (pd (ffu url)) ++ ['"']) prev
        ("import.meta.dirname".toList ++ X) =
        some (("import.meta.dirname".toList).length,
          '"' :: escStr (pd (ffu url)) ++ ['"']) := by
    intro prev X hb hX
    rw [show ("import.meta.dirname".toList).length = 19 from rfl]
    exact tryMetaProp_dirname_token _ prev X hb hX
  have hpass3 : replaceAll
      (tryMetaProp "dirname".toList ('"' :: escStr (pd (ffu url)) ++ ['"']))
      (weave "import.meta.dirname".toList segs) =
      weave ('"' :: escStr (pd (ffu url)) ++ ['"']) segs :=
    replaceAll_weave _ (tryMetaProp_sane _ _) _ _ (by simp) hmatch segs
      (fun s hs => importFree_noMatch_prop _ _ _ (hIF s hs)) hok
  have hresIF : ImportFree (weave ('"' :: escStr (pd (ffu url)) ++ ['"']) segs) :=
    ImportFree_weave (cleanSeg_importFree _ hcd) segs hIF
  have hresId : replaceAll (tryMetaResolve (escStr url))
      (weave ('"' :: escStr (pd (ffu url)) ++ ['"']) segs) =
      weave ('"' :: escStr (pd (ffu url)) ++ ['"']) segs :=
    replaceAll_resolve_of_noMatch _ _ (importFree_noMatch_resolve _ _ hresIF)
  have hdneg : ¬((escStr (pd (ffu url))).isEmpty = true) := by
    rw [hde]
    exact Bool.false_ne_true
  unfold replaceImportMeta
  simp only [sliceQuotes_quoteStr]
  rw [if_pos hf, if_pos hf, hpass1]
  simp only [hIdF, ite_self]
  rw [if_neg hdneg, hpass3, hresId]

/-- For a non-`file://` URL, `replaceImportMeta` leaves a weave of
`import.meta.dirname` tokens untouched. -/
theorem replaceImportMeta_dirname_nonfile (ffu pd : Str → Str) (url : Str)
    (hf : jsStartsWith url "file://".toList = false)
    (segs : List Str) (hclean : segs.all cleanSeg = true) :
    replaceImportMeta ffu pd (weave "import.meta.dirname".toList segs) url =
      weave "import.meta.dirname".toList segs := by
  have hIF : ∀ s ∈ segs, ImportFree s := fun s hs =>
    cleanSeg_importFree s (List.all_eq_true.mp hclean s hs)
  have htail : ImportFree ("mport.meta.".toList ++ 'd' :: "irname".toList) :=
    cleanSeg_importFree _ (by decide)
  have hnm1 : NoMatchOn
      (tryMetaProp "url".toList ('"' :: escStr url ++ ['"']))
      "import.meta.dirname".toList :=
    token_noMatch_prop 'u' "rl".toList _ 'd' "irname".toList (by rfl) (by decide) htail
  have hpass1 : replaceAll (tryMetaProp "url".toList ('"' :: escStr url ++ ['"']))
      (weave "import.meta.dirname".toList segs) =
      weave "import.meta.dirname".toList segs :=
    replaceAll_prop_of_noMatch _ _ _ (NoMatchOn_weave hnm1 segs
      (fun s hs => importFree_noMatch_prop _ _ _ (hIF s hs)))
  have hnmr : NoMatchOn (tryMetaResolve (escStr url))
      "import.meta.dirname".toList :=
    token_noMatch_resolve _ 'd' "irname".toList (by rfl) (by decide) htail
  have hpass4 : replaceAll (tryMetaResolve (escStr url))
      (weave "import.meta.dirname".toList segs) =
      weave "import.meta.dirname".toList segs :=
    replaceAll_resolve_of_noMatch _ _ (NoMatchOn_weave hnmr segs
      (fun s hs => importFree_noMatch_resolve _ _ (hIF s hs)))
  have hfneg : ¬(jsStartsWith url "file://".toList = true) := by
    rw [hf]
    exact Bool.false_ne_true
  unfold replaceImportMeta
  simp only [sliceQuotes_quoteStr]
  rw [if_neg hfneg, if_neg hfneg, hpass1]
  simp only [List.isEmpty_nil, if_true, hpass4]

/-- `replaceImportMeta` on a weave of `import.meta.resolve(<arg>)` call
tokens rewrites every call to `new URL(<trimmed arg>, "<escaped url>").href`
with the argument preserved. -/
theorem replaceImportMeta_resolve_weave (ffu pd : Str → Str) (url arg : Str)
    (hne : arg ≠ []) (hnp : arg.all (fun c => c ≠ ')') = true)
    (hnw : arg.all wsChar = false) (hca : cleanSeg arg = true)
    (segs : List Str) (hclean : segs.all cleanSeg = true)
    (hok : segsOk ("import.meta.resolve(".toList ++ arg ++ [')']) none segs = true) :
    replaceImportMeta ffu pd
      (weave ("import.meta.resolve(".toList ++ arg ++ [')']) segs) url =
      weave ("new URL(".toList ++ jsTrim arg ++ ", \"".toList ++ escStr url ++
        "\").href".toList) segs := by
  have hIF : ∀ s ∈ segs, ImportFree s := fun s hs =>
    cleanSeg_importFree s (List.all_eq_true.mp hclean s hs)
  have htail0 : ImportFree ("mport.meta.resolve(".toList ++ (arg ++ [')'])) :=
    importFree_append
      (cleanSeg_importFree "mport.meta.resolve(".toList (by decide))
      (importFree_append (cleanSeg_importFree arg hca)
        (cleanSeg_importFree [')'] (by decide)))
  have htail : ImportFree
      ("mport.meta.".toList ++ 'r' :: ("esolve(".toList ++ (arg ++ [')']))) :=
    htail0
  have hnmU : NoMatchOn
      (tryMetaProp "url".toList ('"' :: escStr url ++ ['"']))
      ("import.meta.resolve(".toList ++ arg ++ [')']) :=
    token_noMatch_prop 'u' "rl".toList _ 'r'
      ("esolve(".toList ++ (arg ++ [')'])) (by rfl) (by decide) htail
  have hpass1 : replaceAll
      (tryMetaProp "url".toList ('"' :: escStr url ++ ['"']))
      (weave ("import.meta.resolve(".toList ++ arg ++ [')']) segs) =
      weave ("import.meta.resolve(".toList ++ arg ++ [')']) segs :=
    replaceAll_prop_of_noMatch _ _ _ (NoMatchOn_weave hnmU segs
      (fun s hs => importFree_noMatch_prop _ _ _ (hIF s hs)))
  have hIdF : ∀ rep : Str,
      replaceAll (tryMetaProp "filename".toList rep)
        (weave ("import.meta.resolve(".toList ++ arg ++ [')']) segs) =
        weave ("import.meta.resolve(".toList ++ arg ++ [')']) segs := fun rep =>
    replaceAll_prop_of_noMatch _ _ _ (NoMatchOn_weave
      (token_noMatch_prop 'f' "ilename".toList _ 'r'
        ("esolve(".toList ++ (arg ++ [')'])) (by rfl) (by decide) htail) segs
      (fun s hs => importFree_noMatch_prop _ _ _ (hIF s hs)))
  have hIdD : ∀ rep : Str,
      replaceAll (tryMetaProp "dirname".toList rep)
        (weave ("import.meta.resolve(".toList ++ arg ++ [')']) segs) =
        weave ("import.meta.resolve(".toList ++ arg ++ [')']) segs := fun rep =>
    replaceAll_prop_of_noMatch _ _ _ (NoMatchOn_weave
      (token_noMatch_prop 'd' "irname".toList _ 'r'
        ("esolve(".toList ++ (arg ++ [')'])) (by rfl) (by decide) htail) segs
      (fun s hs => importFree_noMatch_prop _ _ _ (hIF s hs)))
  have hmatch : ∀ (prev : Option Char) (X : Str), boundaryOk prev = true →
      headNonWord X = true →
      tryMetaResolve (escStr url) prev
        (("import.meta.resolve(".toList ++ arg ++ [')']) ++ X) =
        some (("import.meta.resolve(".toList ++ arg ++ [')']).length,
          "new URL(".toList ++ jsTrim arg ++ ", \"".toList ++ escStr url ++
            "\").href".toList) := by
    intro prev X hb hX
    have hassoc : ("import.meta.resolve(".toList ++ arg ++ [')']) ++ X =
        "import.meta.resolve(".toList ++ arg ++ ')' :: X := by
      simp
    rw [hassoc]
    exact tryMetaResolve_token (escStr url) arg prev X hb hne hnp hnw
  have hpass4 : replaceAll (tryMetaResolve (escStr url))
      (weave ("import.meta.resolve(".toList ++ arg ++ [')']) segs) =
      weave ("new URL(".toList ++ jsTrim arg ++ ", \"".toList ++ escStr url ++
        "\").href".toList) segs :=
    replaceAll_weave _ (tryMetaResolve_sane _) _ _ (by simp) hmatch segs
      (fun s hs => importFree_noMatch_resolve _ _ (hIF s hs)) hok
  unfold replaceImportMeta
  simp only [sliceQuotes_quoteStr]
  rw [hpass1]
  simp only [hIdF, hIdD, ite_self]
  exact hpass4

/-- C6: `replaceImportMeta` replaces every `import.meta.url` token with a
quoted string literal of the original URL; replaces `import.meta.filename`
and `import.meta.dirname` tokens with quoted literal filesystem paths
derived from the original URL only when it is a `file://` URL, leaving
them untouched otherwise; and replaces every `import.meta.resolve(arg)`
call with `new URL(<arg trimmed>, "<escaped url>").href`, preserving the
argument.  Sources are presented as interleavings of import-free segments
with tokens, under the regexes' word-boundary side conditions. -/
theorem C6_replace_import_meta (ffu pd : Str → Str) (url : Str)
    (hcu : cleanSeg ('"' :: escStr url ++ ['"']) = true)
    (hcf : cleanSeg ('"' :: escStr (ffu url) ++ ['"']) = true)
    (hcd : cleanSeg ('"' :: escStr (pd (ffu url)) ++ ['"']) = true) :
    (∀ segs : List Str, segs.all cleanSeg = true →
      segsOk "import.meta.url".toList none segs = true →
      replaceImportMeta ffu pd (weave "import.meta.url".toList segs) url =
        weave ('"' :: escStr url ++ ['"']) segs) ∧
    (jsStartsWith url "file://".toList = true →
      (escStr (ffu url)).isEmpty = false →
      ∀ segs : List Str, segs.all cleanSeg = true →
        segsOk "import.meta.filename".toList none segs = true →
        replaceImportMeta ffu pd (weave "import.meta.filename".toList segs) url =
          weave ('"' :: escStr (ffu url) ++ ['"']) segs) ∧
    (jsStartsWith url "file://".toList = false →
      ∀ segs : List Str, segs.all cleanSeg = true →
        replaceImportMeta ffu pd (weave "import.meta.filename".toList segs) url =
          weave "import.meta.filename".toList segs) ∧
    (jsStartsWith url "file://".toList = true →
      (escStr (pd (ffu url))).isEmpty = false →
      ∀ segs : List Str, segs.all cleanSeg = true →
        segsOk "import.meta.dirname".toList none segs = true →
        replaceImportMeta ffu pd (weave "import.meta.dirname".toList segs) url =
          weave ('"' :: escStr (pd (ffu url)) ++ ['"']) segs) ∧
    (jsStartsWith url "file://".toList = false →
      ∀ segs : List Str, segs.all cleanSeg = true →
        replaceImportMeta ffu pd (weave "import.meta.dirname".toList segs) url =
          weave "import.meta.dirname".toList segs) ∧
    (∀ (arg : Str) (segs : List Str), arg ≠ [] →
      arg.all (fun c => c ≠ ')') = true → arg.all wsChar = false →
      cleanSeg arg = true → segs.all cleanSeg = true →
      segsOk ("import.meta.resolve(".toList ++ arg ++ [')']) none segs = true →
      replaceImportMeta ffu pd
        (weave ("import.meta.resolve(".toList ++ arg ++ [')']) segs) url =
        weave ("new URL(".toList ++ jsTrim arg ++ ", \"".toList ++ escStr url ++
          "\").href".toList) segs) :=
  ⟨fun segs h1 h2 => replaceImportMeta_url_weave ffu pd url hcu segs h1 h2,
   fun hf hfe segs h1 h2 =>
     replaceImportMeta_filename_weave ffu pd url hf hfe hcf segs h1 h2,
   fun hf segs h1 => replaceImportMeta_filename_nonfile ffu pd url hf segs h1,
   fun hf hde segs h1 h2 =>
     replaceImportMeta_dirname_weave ffu pd url hf hde hcd segs h1 h2,
   fun hf segs h1 => replaceImportMeta_dirname_nonfile ffu pd url hf segs h1,
   fun arg segs hne hnp hnw hca h1 h2 =>
     replaceImportMeta_resolve_weave ffu pd url arg hne hnp hnw hca segs h1 h2⟩

/-- C6 witness: concrete runs at a `file://` URL (url, filename, dirname
and resolve tokens rewritten) and at an `https://` URL (filename and
dirname tokens left untouched), with `fromFileUrl` resolving to
`/app/mod.ts` and its directory `/app`. -/
theorem C6_witness :
    (replaceImportMeta (fun _ => "/app/mod.ts".toList) (fun _ => "/app".toList)
      "const u = import.meta.url;\n".toList "file:///app/mod.ts".toList =
      "const u = \"file:///app/mod.ts\";\n".toList) ∧
    (replaceImportMeta (fun _ => "/app/mod.ts".toList) (fun _ => "/app".toList)
      "const f = import.meta.filename;\n".toList "file:///app/mod.ts".toList =
      "const f = \"/app/mod.ts\";\n".toList) ∧
    (replaceImportMeta (fun _ => "/app/mod.ts".toList) (fun _ => "/app".toList)
      "const d = import.meta.dirname;\n".toList "file:///app/mod.ts".toList =
      "const d = \"/app\";\n".toList) ∧
    (replaceImportMeta (fun _ => "/app/mod.ts".toList) (fun _ => "/app".toList)
      "const r = import.meta.resolve(\"./a.ts\");\n".toList
      "file:///app/mod.ts".toList =
      "const r = new URL(\"./a.ts\", \"file:///app/mod.ts\").href;\n".toList) ∧
    (replaceImportMeta (fun _ => "/app/mod.ts".toList) (fun _ => "/app".toList)
      "const f = import.meta.filename;\n".toList
      "https://example.com/mod.ts".toList =
      "const f = import.meta.filename;\n".toList) ∧
    (replaceImportMeta (fun _ => "/app/mod.ts".toList) (fun _ => "/app".toList)
      "const d = import.meta.dirname;\n".toList
      "https://example.com/mod.ts".toList =
      "const d = import.meta.dirname;\n".toList) := by
  obtain ⟨hA, hB, hB', hC, hC', hD⟩ :=
    C6_replace_import_meta (fun _ => "/app/mod.ts".toList)
      (fun _ => "/app".toList) "file:///app/mod.ts".toList
      (by decide) (by decide) (by decide)
  obtain ⟨_, _, h2B', _, h2C', _⟩ :=
    C6_replace_import_meta (fun _ => "/app/mod.ts".toList)
      (fun _ => "/app".toList) "https://example.com/mod.ts".toList
      (by decide) (by decide) (by decide)
  refine ⟨?_, ?_, ?_, ?_, ?_, ?_⟩
  · exact hA ["const u = ".toList, ";\n".toList] (by decide) (by decide)
  · exact hB (by decide) (by decide) ["const f = ".toList, ";\n".toList]
      (by decide) (by decide)
  · exact hC (by decide) (by decide) ["const d = ".toList, ";\n".toList]
      (by decide) (by decide)
  · exact hD "\"./a.ts\"".toList ["const r = ".toList, ";\n".toList]
      (by decide) (by decide) (by decide) (by decide) (by decide) (by decide)
  · exact h2B' (by decide) ["const f = ".toList, ";\n".toList] (by decide)
  · exact h2C' (by decide) ["const d = ".toList, ";\n".toList] (by decide)

/-! ### The importer engine (`ImportMapImporter`, src/unnamed/part_015)

The asynchronous methods are modelled by their sequential semantics: the
dependency promises of `#processDependenciesParallel` are created and
awaited in order.  `clearDenoCache` is left at its default `false`, so the
Deno-cache clearing branches are dead.  Re-entry through
`#transformationPromises` cannot occur in the sequential semantics (the
cache URL is registered in `#transformedModules` before any recursion), so
the re-entry fallback of `#transformModule` returns the raw URL string
exactly as in the source. -/

/-- `#isRelativeOrFileUrl`. -/
def isRelativeOrFileUrl (specifier : Str) : Bool :=
  match specifier with
  | [] => false
  | c :: _ => c = '.' || c = '/' || jsStartsWith specifier "file://".toList

/-- `#isHttpUrl`. -/
def isHttpUrl (specifier : Str) : Bool :=
  jsStartsWith specifier "http://".toList ||
    jsStartsWith specifier "https://".toList

/-- The regex of `#hasImports`:
`(?:import|export)\s+(?:.*\s+from\s+|)['"]` (the `m` flag only affects the
unused anchors). -/
def hasImportsPat : Pat :=
  .seq (.alt (.lit "import".toList) (.lit "export".toList))
  (.seq (Pat.plus (.one wsChar))
  (.seq (Pat.opt (.seq (.star (.one (fun c => c ≠ '\n')))
    (.seq (Pat.plus (.one wsChar))
      (.seq (.lit "from".toList) (Pat.plus (.one wsChar))))))
  (.one quoteChar)))

/-- `RegExp.test`: try the pattern at every position. -/
def testPat (p : Pat) : Str → Bool
  | [] => !(matchLens (matchFuel p []) p []).isEmpty
  | c :: t =>
    !(matchLens (matchFuel p (c :: t)) p (c :: t)).isEmpty || testPat p t

/-- `#hasImports`. -/
def hasImports (code : Str) : Bool := testPat hasImportsPat code

/-- One position of the `#hasImportMetaUrl` regex
`\bimport\s*\.\s*meta\s*\.\s*(url|filename|dirname|resolve\s*\()`
(no trailing boundary). -/
def hasImportMetaUrlAt (prev : Option Char) (s : Str) : Bool :=
  boundaryOk prev &&
    match matchMetaHead s with
    | none => false
    | some rest =>
      (chompLit "url".toList rest).isSome ||
      (chompLit "filename".toList rest).isSome ||
      (chompLit "dirname".toList rest).isSome ||
      (match chompLit "resolve".toList rest with
       | none => false
       | some r2 => (chompLit ['('] (r2.dropWhile wsChar)).isSome)

/-- Scan of `#hasImportMetaUrl` over all positions. -/
def hasImportMetaUrlGo : Option Char → Str → Bool
  | _, [] => false
  | prev, c :: t => hasImportMetaUrlAt prev (c :: t) || hasImportMetaUrlGo (some c) t

/-- `#hasImportMetaUrl`. -/
def hasImportMetaUrl (code : Str) : Bool := hasImportMetaUrlGo none code

/-- The platform primitives the importer runs on: module loading over the
network or filesystem, the structural parser of `replace_imports.ts`
(deno-graph), WHATWG URL resolution, the cache-path computation of
`#getCacheUrl` (SHA-256, `@std/path` joins), `@std/path` conversions and
the dynamic `import()` loader.  `selfUrl` is the importer module's own
`import.meta.url`. -/
structure Platform where
  readModule : Str → Except Str Str
  graphDeps : Str → List Dependency
  resolveUrl : Str → Str → Str
  parseUrl : Str → Str
  cacheUrlOf : Str → Str → Str
  fromFileUrl : Str → Str
  pathDirname : Str → Str
  loadModule : Str → Nat
  selfUrl : Str

/-- The mutable fields of an `ImportMapImporter` instance, plus the written
cache files, the emitted `console.warn` messages and the log of specifier
resolver invocations. -/
structure EngineState where
  cache : List (Str × Nat)
  transformedModules : List (Str × Str)
  processingModules : List Str
  files : List (Str × Str)
  warnings : List Str
  resolverLog : List Str

/-- The state of a freshly constructed instance. -/
def initState : EngineState :=
  { cache := [], transformedModules := [], processingModules := [],
    files := [], warnings := [], resolverLog := [] }

/-- `Map.set`: update in place or append, preserving insertion order. -/
def setKV : List (Str × Str) → Str → Str → List (Str × Str)
  | [], k, v => [(k, v)]
  | (k', v') :: rest, k, v =>
    if k' = k then (k, v) :: rest else (k', v') :: setKV rest k v

/-- `Set`/`Map` membership for plain strings. -/
def containsStr : List Str → Str → Bool
  | [], _ => false
  | x :: rest, u => x = u || containsStr rest u

/-- Removal from `#processingModules`. -/
def removeStr : List Str → Str → List Str
  | [], _ => []
  | x :: rest, u => if x = u then rest else x :: removeStr rest u

/-- `Map.get` for the memory cache of module objects. -/
def lookupMod (k : Str) : List (Str × Nat) → Option Nat
  | [] => none
  | (k', v) :: rest => if k' = k then some v else lookupMod k rest

/-- The warning `#processDependenciesParallel` prints when a dependency
fails. -/
def depWarning (specifier message : Str) : Str :=
  "Failed to transform ".toList ++ specifier ++ ": ".toList ++ message

/-- The dependency loop of `#processDependenciesParallel` (sequential
semantics), parameterized by the recursive transform: each processable
transformed specifier is resolved and transformed; on failure a warning is
emitted and the resolved URL is kept.  Returns the
`transformedToCachedUrls` map. -/
def processDeps (P : Platform) (parentUrl : Str)
    (recFn : Str → EngineState → (Except Str Str) × EngineState) :
    List Str → EngineState → List (Str × Str) →
      EngineState × List (Str × Str)
  | [], st, acc => (st, acc)
  | tspec :: rest, st, acc =>
    if isRelativeOrFileUrl tspec || isHttpUrl tspec then
      let resolvedUrl := if isRelativeOrFileUrl tspec
        then P.resolveUrl tspec parentUrl else P.parseUrl tspec
      match recFn resolvedUrl st with
      | (.ok cachedUrl, st') =>
        processDeps P parentUrl recFn rest st' (setKV acc tspec cachedUrl)
      | (.error e, st') =>
        let resolved := if isRelativeOrFileUrl tspec
          then P.resolveUrl tspec parentUrl else tspec
        processDeps P parentUrl recFn rest
          { st' with warnings := st'.warnings ++ [depWarning tspec e] }
          (setKV acc tspec resolved)
    else
      processDeps P parentUrl recFn rest st acc

/-- `#cacheModule` (src/unnamed/part_015 lines 305-320): rewrite the
module-identity references when present, add the banner only when the code
changed, write the file and register the cache URL.  The
`#processingModules` cleanup is the caller's `finally`. -/
def cacheModule (P : Platform) (urlString code : Str) (st1 : EngineState) :
    Str × EngineState :=
  let processedCode := if hasImportMetaUrl code
    then replaceImportMeta P.fromFileUrl P.pathDirname code urlString
    else code
  let finalCode := if processedCode = code
    then processedCode
    else createOriginalUrlComment urlString ++ processedCode
  let cacheUrl := P.cacheUrlOf urlString finalCode
  (cacheUrl, { st1 with
    files := setKV st1.files cacheUrl finalCode,
    transformedModules := (urlString, cacheUrl) :: st1.transformedModules })

/-- The slow path of `#transformModule`'s transformation closure
(src/unnamed/part_015 lines 212-264), parameterized by the recursive
transform `recFn`: first specifier-rewriting pass with the instrumented
replacer, module-identity rewriting, early cache-URL registration,
dependency processing, second pass over the dependency map, banner and
write.  The `finally` cleanup is the caller's. -/
def transformSlow (P : Platform) (importEntries : List (Str × Str))
    (scopeEntries : List (Str × List (Str × Str)))
    (recFn : Str → EngineState → (Except Str Str) × EngineState)
    (urlString originalCode : Str) (st1 : EngineState) :
    Str × EngineState :=
  let deps := P.graphDeps originalCode
  let localSpecs := (deps.map (fun d => d.specifier)).filter
    (fun s => !isRemoteSpecifier s)
  let replacer := fun s =>
    applyImportMapToSpecifier importEntries scopeEntries urlString s
  let otport := (localSpecs.map (fun s => (s, replacer s))).foldl
    (fun m kv => setKV m kv.1 kv.2) []
  let transformedCode := replaceImportMeta P.fromFileUrl P.pathDirname
    (replaceImports originalCode deps replacer) urlString
  let cacheUrl := P.cacheUrlOf urlString transformedCode
  let st2 := { st1 with
    transformedModules := (urlString, cacheUrl) :: st1.transformedModules,
    resolverLog := st1.resolverLog ++ localSpecs }
  let stepped := processDeps P urlString recFn (otport.map Prod.snd) st2 []
  let st3 := stepped.1
  let t2c := stepped.2
  let finalCode := if t2c.isEmpty then transformedCode
    else replaceImports transformedCode (P.graphDeps transformedCode)
      (fun s =>
        match assocFind s t2c with
        | some c => if c.isEmpty then s else c
        | none => s)
  let codeWithBanner := createOriginalUrlComment urlString ++ finalCode
  (cacheUrl, { st3 with
    files := setKV st3.files cacheUrl codeWithBanner })

/-- `#transformModule` (sequential semantics, fuel-bounded recursion; the
theorems always supply ample fuel).  Follows src/unnamed/part_015 lines
170-274: transformed-modules check, in-progress check, read, fast path via
`cacheModule` or slow path via `transformSlow`, with the `finally` cleanup
of `#processingModules`. -/
def transformModule (P : Platform) (importEntries : List (Str × Str))
    (scopeEntries : List (Str × List (Str × Str))) :
    Nat → Str → EngineState → (Except Str Str) × EngineState
  | 0, _, st => (.error "fuel".toList, st)
  | fuel + 1, urlString, st =>
    match assocFind urlString st.transformedModules with
    | some cached => (.ok cached, st)
    | none =>
      if containsStr st.processingModules urlString then (.ok urlString, st)
      else
        let st1 := { st with
          processingModules := urlString :: st.processingModules }
        match P.readModule urlString with
        | .error e =>
          (.error e, { st1 with
            processingModules := removeStr st1.processingModules urlString })
        | .ok originalCode =>
          if !hasImports originalCode && !hasImportMetaUrl originalCode then
            let r := cacheModule P urlString originalCode st1
            (.ok r.1, { r.2 with
              processingModules := removeStr r.2.processingModules urlString })
          else
            let r := transformSlow P importEntries scopeEntries
              (fun u s =>
                transformModule P importEntries scopeEntries fuel u s)
              urlString originalCode st1
            (.ok r.1, { r.2 with
              processingModules := removeStr r.2.processingModules urlString })

/-- `ImportMapImporter.import` (sequential semantics, default options):
memory-cache check, URL resolution against the importer's own module URL,
transformation, dynamic load, and memoization keyed by the originally
requested specifier. -/
def importSpec (P : Platform) (importEntries : List (Str × Str))
    (scopeEntries : List (Str × List (Str × Str))) (fuel : Nat)
    (specifier : Str) (st : EngineState) : (Except Str Nat) × EngineState :=
  match lookupMod specifier st.cache with
  | some m => (.ok m, st)
  | none =>
    let url := P.resolveUrl specifier P.selfUrl
    match transformModule P importEntries scopeEntries fuel url st with
    | (.ok transformedUrl, st') =>
      let m := P.loadModule transformedUrl
      (.ok m, { st' with cache := (specifier, m) :: st'.cache })
    | (.error e, st') => (.error e, st')

/-- Removing the just-added entry restores the set. -/
theorem removeStr_cons_self (ps : List Str) (u : Str) :
    removeStr (u :: ps) u = ps := by
  simp [removeStr]

/-- Re-entry for a URL whose cache URL is registered returns it and leaves
the state alone. -/
theorem transformModule_hit (P : Platform) (ie : List (Str × Str))
    (se : List (Str × List (Str × Str))) (fuel : Nat) (url : Str)
    (st : EngineState) (c : Str)
    (h : assocFind url st.transformedModules = some c) :
    transformModule P ie se (fuel + 1) url st = (.ok c, st) := by
  unfold transformModule
  rw [h]

/-- Re-entry for a URL that is still in progress with no registered cache
URL returns the raw URL string and leaves the state alone. -/
theorem transformModule_inProgress (P : Platform) (ie : List (Str × Str))
    (se : List (Str × List (Str × Str))) (fuel : Nat) (url : Str)
    (st : EngineState)
    (h1 : assocFind url st.transformedModules = none)
    (h2 : containsStr st.processingModules url = true) :
    transformModule P ie se (fuel + 1) url st = (.ok url, st) := by
  unfold transformModule
  rw [h1, h2]
  rfl

/-- A failing read surfaces as an error and restores the state. -/
theorem transformModule_read_error (P : Platform) (ie : List (Str × Str))
    (se : List (Str × List (Str × Str))) (fuel : Nat) (url : Str)
    (st : EngineState) (e : Str)
    (h1 : assocFind url st.transformedModules = none)
    (h2 : containsStr st.processingModules url = false)
    (h3 : P.readModule url = .error e) :
    transformModule P ie se (fuel + 1) url st = (.error e, st) := by
  unfold transformModule
  rw [h1, h2, h3]
  simp [removeStr_cons_self]

/-- A fresh URL whose source defeats both cheap matchers takes the fast
path: the file is written byte-identical, the cache URL is registered, and
nothing else changes — in particular the resolver log. -/
theorem transformModule_fast (P : Platform) (ie : List (Str × Str))
    (se : List (Str × List (Str × Str))) (fuel : Nat) (url : Str)
    (st : EngineState) (code : Str)
    (h1 : assocFind url st.transformedModules = none)
    (h2 : containsStr st.processingModules url = false)
    (h3 : P.readModule url = .ok code)
    (h4 : hasImports code = false)
    (h5 : hasImportMetaUrl code = false) :
    transformModule P ie se (fuel + 1) url st =
      (.ok (P.cacheUrlOf url code),
       { st with
         files := setKV st.files (P.cacheUrlOf url code) code,
         transformedModules :=
           (url, P.cacheUrlOf url code) :: st.transformedModules }) := by
  unfold transformModule
  simp only [h1, h2, h3, h4, h5, cacheModule, Bool.not_false, Bool.and_self,
    Bool.false_eq_true, Bool.true_eq_false, eq_self_iff_true, if_true,
    if_false, removeStr_cons_self]

/-- A fresh URL whose source trips a cheap matcher takes the slow path. -/
theorem transformModule_slow (P : Platform) (ie : List (Str × Str))
    (se : List (Str × List (Str × Str))) (fuel : Nat) (url : Str)
    (st : EngineState) (code : Str)
    (h1 : assocFind url st.transformedModules = none)
    (h2 : containsStr st.processingModules url = false)
    (h3 : P.readModule url = .ok code)
    (h4 : (!hasImports code && !hasImportMetaUrl code) = false) :
    transformModule P ie se (fuel + 1) url st =
      (let r := transformSlow P ie se
        (fun u s => transformModule P ie se fuel u s) url code
        { st with processingModules := url :: st.processingModules }
       (.ok r.1, { r.2 with
         processingModules := removeStr r.2.processingModules url })) := by
  conv_lhs => unfold transformModule
  simp only [h1, h2, h3, h4, Bool.false_eq_true, if_false]

/-- Lookup after `Map.set` of the same key. -/
theorem assocFind_setKV_self (l : List (Str × Str)) (k v : Str) :
    assocFind k (setKV l k v) = some v := by
  induction l with
  | nil => simp [setKV, assocFind]
  | cons kv rest ih =>
    obtain ⟨k', v'⟩ := kv
    by_cases h : k' = k
    · simp [setKV, h, assocFind]
    · have hne : ¬(k = k') := fun hh => h hh.symm
      simp only [setKV, if_neg h]
      rw [show assocFind k ((k', v') :: setKV rest k v) =
        if k = k' then some v' else assocFind k (setKV rest k v) from rfl,
        if_neg hne]
      exact ih

/-- One processable dependency that transforms successfully. -/
theorem processDeps_one_ok (P : Platform) (parent : Str)
    (recFn : Str → EngineState → (Except Str Str) × EngineState)
    (tspec : Str) (st : EngineState) (acc : List (Str × Str))
    (rurl c : Str) (st' : EngineState)
    (hrel : isRelativeOrFileUrl tspec = true)
    (hres : P.resolveUrl tspec parent = rurl)
    (hrec : recFn rurl st = (.ok c, st')) :
    processDeps P parent recFn [tspec] st acc = (st', setKV acc tspec c) := by
  unfold processDeps
  simp only [hrel, Bool.true_or, if_true, hres, hrec]
  rfl

/-- One processable dependency whose transform fails: the warning is
emitted and the resolved URL is kept in the map. -/
theorem processDeps_one_fail (P : Platform) (parent : Str)
    (recFn : Str → EngineState → (Except Str Str) × EngineState)
    (tspec : Str) (st : EngineState) (acc : List (Str × Str))
    (rurl e : Str) (st' : EngineState)
    (hrel : isRelativeOrFileUrl tspec = true)
    (hres : P.resolveUrl tspec parent = rurl)
    (hrec : recFn rurl st = (.error e, st')) :
    processDeps P parent recFn [tspec] st acc =
      ({ st' with warnings := st'.warnings ++ [depWarning tspec e] },
       setKV acc tspec rurl) := by
  unfold processDeps
  simp only [hrel, Bool.true_or, if_true, hres, hrec]
  rfl

/-- `transformSlow` over a single local dependency whose recursive
transform succeeds: the dependency map sends the transformed specifier to
the returned cache URL, and the second pass runs with that map. -/
theorem transformSlow_one_ok (P : Platform) (ie : List (Str × Str))
    (se : List (Str × List (Str × Str)))
    (recFn : Str → EngineState → (Except Str Str) × EngineState)
    (url src : Str) (st1 : EngineState) (dep : Dependency)
    (tspec tcode curl rurl c : Str) (st' : EngineState)
    (hdeps : P.graphDeps src = [dep])
    (hlocal : isRemoteSpecifier dep.specifier = false)
    (htspec : applyImportMapToSpecifier ie se url dep.specifier = tspec)
    (htc : tcode = replaceImportMeta P.fromFileUrl P.pathDirname
      (replaceImports src [dep]
        (fun s => applyImportMapToSpecifier ie se url s)) url)
    (hcu : curl = P.cacheUrlOf url tcode)
    (hrel : isRelativeOrFileUrl tspec = true)
    (hres : P.resolveUrl tspec url = rurl)
    (hrec : recFn rurl
      { st1 with
        transformedModules := (url, curl) :: st1.transformedModules,
        resolverLog := st1.resolverLog ++ [dep.specifier] } = (.ok c, st')) :
    transformSlow P ie se recFn url src st1 =
      (curl,
       { st' with
         files := setKV st'.files curl
           (createOriginalUrlComment url ++
             replaceImports tcode (P.graphDeps tcode)
               (fun s =>
                 match assocFind s [(tspec, c)] with
                 | some cu => if cu.isEmpty then s else cu
                 | none => s)) }) := by
  unfold transformSlow
  simp only [hdeps, List.map_cons, List.map_nil, List.filter_cons,
    List.filter_nil, hlocal, Bool.not_false, if_true, htspec,
    List.foldl_cons, List.foldl_nil, setKV]
  rw [← htc, ← hcu]
  rw [processDeps_one_ok P url recFn tspec _ [] rurl c st' hrel hres hrec]
  simp only [setKV, List.isEmpty_cons, Bool.false_eq_true, if_false]

/-- `transformSlow` over a single local dependency whose recursive
transform fails: the warning is emitted and the dependency map sends the
transformed specifier to its resolved URL. -/
theorem transformSlow_one_fail (P : Platform) (ie : List (Str × Str))
    (se : List (Str × List (Str × Str)))
    (recFn : Str → EngineState → (Except Str Str) × EngineState)
    (url src : Str) (st1 : EngineState) (dep : Dependency)
    (tspec tcode curl rurl e : Str) (st' : EngineState)
    (hdeps : P.graphDeps src = [dep])
    (hlocal : isRemoteSpecifier dep.specifier = false)
    (htspec : applyImportMapToSpecifier ie se url dep.specifier = tspec)
    (htc : tcode = replaceImportMeta P.fromFileUrl P.pathDirname
      (replaceImports src [dep]
        (fun s => applyImportMapToSpecifier ie se url s)) url)
    (hcu : curl = P.cacheUrlOf url tcode)
    (hrel : isRelativeOrFileUrl tspec = true)
    (hres : P.resolveUrl tspec url = rurl)
    (hrec : recFn rurl
      { st1 with
        transformedModules := (url, curl) :: st1.transformedModules,
        resolverLog := st1.resolverLog ++ [dep.specifier] } = (.error e, st')) :
    transformSlow P ie se recFn url src st1 =
      (curl,
       { st' with
         warnings := st'.warnings ++ [depWarning tspec e],
         files := setKV st'.files curl
           (createOriginalUrlComment url ++
             replaceImports tcode (P.graphDeps tcode)
               (fun s =>
                 match assocFind s [(tspec, rurl)] with
                 | some cu => if cu.isEmpty then s else cu
                 | none => s)) }) := by
  unfold transformSlow
  simp only [hdeps, List.map_cons, List.map_nil, List.filter_cons,
    List.filter_nil, hlocal, Bool.not_false, if_true, htspec,
    List.foldl_cons, List.foldl_nil, setKV]
  rw [← htc, ← hcu]
  rw [processDeps_one_fail P url recFn tspec _ [] rurl e st' hrel hres hrec]
  simp only [setKV, List.isEmpty_cons, Bool.false_eq_true, if_false]

/-- C4: a failing recursive dependency transform is non-fatal.  (a) When
the only dependency's module fails to load, the parent still succeeds: its
result is `.ok` with its own cache URL, one warning is emitted, and the
second-pass substitution map sends the dependency's transformed specifier
to its best-effort resolved absolute URL, which is what the final cached
source is rewritten with.  (b) A load failure of the root module itself
makes the top-level `import()` fail. -/
theorem C4_dependency_failure_nonfatal (P : Platform) (ie : List (Str × Str))
    (se : List (Str × List (Str × Str))) (fuel : Nat) (url src : Str)
    (dep : Dependency) (tspec tcode curl rurl e : Str) (st : EngineState)
    (h1 : assocFind url st.transformedModules = none)
    (h2 : containsStr st.processingModules url = false)
    (h3 : P.readModule url = .ok src)
    (h4 : (!hasImports src && !hasImportMetaUrl src) = false)
    (hdeps : P.graphDeps src = [dep])
    (hlocal : isRemoteSpecifier dep.specifier = false)
    (htspec : applyImportMapToSpecifier ie se url dep.specifier = tspec)
    (htc : tcode = replaceImportMeta P.fromFileUrl P.pathDirname
      (replaceImports src [dep]
        (fun s => applyImportMapToSpecifier ie se url s)) url)
    (hcu : curl = P.cacheUrlOf url tcode)
    (hrel : isRelativeOrFileUrl tspec = true)
    (hres : P.resolveUrl tspec url = rurl)
    (hrne : rurl ≠ url)
    (hrfind : assocFind rurl st.transformedModules = none)
    (hrcont : containsStr st.processingModules rurl = false)
    (hrerr : P.readModule rurl = .error e) :
    (transformModule P ie se (fuel + 2) url st =
      (.ok curl,
       { st with
         transformedModules := (url, curl) :: st.transformedModules,
         resolverLog := st.resolverLog ++ [dep.specifier],
         warnings := st.warnings ++ [depWarning tspec e],
         files := setKV st.files curl
           (createOriginalUrlComment url ++
             replaceImports tcode (P.graphDeps tcode)
               (fun s =>
                 match assocFind s [(tspec, rurl)] with
                 | some cu => if cu.isEmpty then s else cu
                 | none => s)) })) ∧
    (∀ (spec m : Str) (st' : EngineState),
      lookupMod spec st'.cache = none →
      assocFind (P.resolveUrl spec P.selfUrl) st'.transformedModules = none →
      containsStr st'.processingModules (P.resolveUrl spec P.selfUrl) = false →
      P.readModule (P.resolveUrl spec P.selfUrl) = .error m →
      importSpec P ie se (fuel + 1) spec st' = (.error m, st')) := by
  constructor
  · rw [transformModule_slow P ie se (fuel + 1) url st src h1 h2 h3 h4]
    have hfind2 : assocFind rurl
        ((url, curl) :: st.transformedModules) = none := by
      rw [show assocFind rurl ((url, curl) :: st.transformedModules) =
        if rurl = url then some curl else assocFind rurl st.transformedModules
        from rfl, if_neg hrne, hrfind]
    have hcont2 : containsStr (url :: st.processingModules) rurl = false := by
      rw [show containsStr (url :: st.processingModules) rurl =
        (url = rurl || containsStr st.processingModules rurl) from rfl]
      rw [hrcont, Bool.or_false]
      exact decide_eq_false (fun hh : url = rurl => hrne hh.symm)
    have hrec := transformModule_read_error P ie se fuel rurl
      { st with
        processingModules := url :: st.processingModules,
        transformedModules := (url, curl) :: st.transformedModules,
        resolverLog := st.resolverLog ++ [dep.specifier] } e hfind2 hcont2 hrerr
    rw [transformSlow_one_fail P ie se _ url src _ dep tspec tcode curl rurl e _
      hdeps hlocal htspec htc hcu hrel hres hrec]
    simp only [removeStr_cons_self]
  · intro spec m st' hc hfind hcont herr
    unfold importSpec
    simp only [hc]
    rw [transformModule_read_error P ie se fuel _ st' m hfind hcont herr]

/-- Source of the C4 witness: one local import of a module that fails to
load. -/
def c4src : Str := "import x from \"./missing.ts\";\n".toList

/-- The dependency deno-graph reports for `c4src` (specifier span covering
`"./missing.ts"` on line 0, characters 14-28). -/
def c4dep : Dependency :=
  { specifier := "./missing.ts".toList,
    code := some { startLine := 0, startChar := 14, endLine := 0, endChar := 28 },
    type := none }

/-- Platform of the C4 witness: only `file:///a/main.ts` loads; every
other URL (in particular the resolved dependency) fails with `boom`. -/
def c4P : Platform :=
  { readModule := fun u => if u = "file:///a/main.ts".toList
      then .ok c4src else .error "boom".toList,
    graphDeps := fun _ => [c4dep],
    resolveUrl := fun s _ => if s = "./missing.ts".toList
      then "file:///a/missing.ts".toList else s,
    parseUrl := fun s => s,
    cacheUrlOf := fun u _ => "c-".toList ++ u,
    fromFileUrl := fun s => s.drop 7,
    pathDirname := fun s => s,
    loadModule := fun _ => 0,
    selfUrl := "file:///imp.ts".toList }

/-- C4 witness: transforming `file:///a/main.ts` succeeds although its only
dependency fails to load; exactly the source's warning is emitted; and a
root module that fails to load makes the top-level import fail. -/
theorem C4_witness :
    (transformModule c4P [] [] 2 "file:///a/main.ts".toList initState).1 =
      .ok ("c-file:///a/main.ts".toList) ∧
    (transformModule c4P [] [] 2 "file:///a/main.ts".toList initState).2.warnings =
      [depWarning "./missing.ts".toList "boom".toList] ∧
    importSpec c4P [] [] 1 "./nope.ts".toList initState =
      (.error "boom".toList, initState) := by
  have H := C4_dependency_failure_nonfatal c4P [] [] 0
    "file:///a/main.ts".toList c4src c4dep "./missing.ts".toList
    (replaceImportMeta c4P.fromFileUrl c4P.pathDirname
      (replaceImports c4src [c4dep]
        (fun s => applyImportMapToSpecifier [] [] "file:///a/main.ts".toList s))
      "file:///a/main.ts".toList)
    ("c-file:///a/main.ts".toList) "file:///a/missing.ts".toList
    "boom".toList initState
    rfl rfl rfl (by decide) rfl rfl rfl rfl rfl (by decide) rfl (by decide)
    rfl rfl rfl
  refine ⟨?_, ?_, ?_⟩
  · rw [H.1]
  · rw [H.1]
    simp [initState]
  · exact H.2 "./nope.ts".toList "boom".toList initState rfl rfl rfl rfl

/-- C3: mutual imports terminate and break the cycle.  (a) A re-entered
transform whose cache URL is already registered returns that in-flight
cache URL; (b) a re-entered transform that is still in progress with no
registered cache URL returns the raw original module URL; neither recurses
or changes state.  (c) For two modules `A` and `B` whose single local
dependencies resolve to each other, transforming `A` terminates with `A`'s
cache URL, and the two written cache files are produced with substitution
maps that send `B`'s specifier to `B`'s cache artifact (inside `A`) and
`A`'s specifier to `A`'s cache artifact (inside `B`) — not to the original
sources. -/
theorem C3_cycle_termination (P : Platform) (ie : List (Str × Str))
    (se : List (Str × List (Str × Str))) (fuel : Nat) (A B : Str)
    (srcA srcB : Str) (depB depA : Dependency)
    (tsB tsA tcodeA tcodeB curlA curlB : Str) (st : EngineState)
    (hAB : A ≠ B)
    (hfA : assocFind A st.transformedModules = none)
    (hfB : assocFind B st.transformedModules = none)
    (hcA : containsStr st.processingModules A = false)
    (hcB : containsStr st.processingModules B = false)
    (hreadA : P.readModule A = .ok srcA)
    (h4A : (!hasImports srcA && !hasImportMetaUrl srcA) = false)
    (hdepsA : P.graphDeps srcA = [depB])
    (hlocalB : isRemoteSpecifier depB.specifier = false)
    (htsB : applyImportMapToSpecifier ie se A depB.specifier = tsB)
    (htcA : tcodeA = replaceImportMeta P.fromFileUrl P.pathDirname
      (replaceImports srcA [depB]
        (fun s => applyImportMapToSpecifier ie se A s)) A)
    (hcuA : curlA = P.cacheUrlOf A tcodeA)
    (hrelB : isRelativeOrFileUrl tsB = true)
    (hresB : P.resolveUrl tsB A = B)
    (hreadB : P.readModule B = .ok srcB)
    (h4B : (!hasImports srcB && !hasImportMetaUrl srcB) = false)
    (hdepsB : P.graphDeps srcB = [depA])
    (hlocalA : isRemoteSpecifier depA.specifier = false)
    (htsA : applyImportMapToSpecifier ie se B depA.specifier = tsA)
    (htcB : tcodeB = replaceImportMeta P.fromFileUrl P.pathDirname
      (replaceImports srcB [depA]
        (fun s => applyImportMapToSpecifier ie se B s)) B)
    (hcuB : curlB = P.cacheUrlOf B tcodeB)
    (hrelA : isRelativeOrFileUrl tsA = true)
    (hresA : P.resolveUrl tsA B = A) :
    (∀ (fuel' : Nat) (url : Str) (st' : EngineState) (c : Str),
      assocFind url st'.transformedModules = some c →
      transformModule P ie se (fuel' + 1) url st' = (.ok c, st')) ∧
    (∀ (fuel' : Nat) (url : Str) (st' : EngineState),
      assocFind url st'.transformedModules = none →
      containsStr st'.processingModules url = true →
      transformModule P ie se (fuel' + 1) url st' = (.ok url, st')) ∧
    transformModule P ie se (fuel + 3) A st =
      (.ok curlA,
       { st with
         transformedModules := (B, curlB) :: (A, curlA) :: st.transformedModules,
         resolverLog := st.resolverLog ++ [depB.specifier] ++ [depA.specifier],
         files := setKV
           (setKV st.files curlB
             (createOriginalUrlComment B ++
               replaceImports tcodeB (P.graphDeps tcodeB)
                 (fun s =>
                   match assocFind s [(tsA, curlA)] with
                   | some cu => if cu.isEmpty then s else cu
                   | none => s)))
           curlA
           (createOriginalUrlComment A ++
             replaceImports tcodeA (P.graphDeps tcodeA)
               (fun s =>
                 match assocFind s [(tsB, curlB)] with
                 | some cu => if cu.isEmpty then s else cu
                 | none => s)) }) := by
  refine ⟨fun fuel' url st' c h => transformModule_hit P ie se fuel' url st' c h,
    fun fuel' url st' h1 h2 => transformModule_inProgress P ie se fuel' url st' h1 h2,
    ?_⟩
  have hfB2 : assocFind B ((A, curlA) :: st.transformedModules) = none := by
    rw [show assocFind B ((A, curlA) :: st.transformedModules) =
      if B = A then some curlA else assocFind B st.transformedModules from rfl,
      if_neg (fun hh : B = A => hAB hh.symm), hfB]
  have hcB2 : containsStr (A :: st.processingModules) B = false := by
    rw [show containsStr (A :: st.processingModules) B =
      (A = B || containsStr st.processingModules B) from rfl, hcB,
      Bool.or_false]
    exact decide_eq_false hAB
  have hfindA2 : assocFind A
      ((B, curlB) :: (A, curlA) :: st.transformedModules) = some curlA := by
    rw [show assocFind A ((B, curlB) :: (A, curlA) :: st.transformedModules) =
      if A = B then some curlB
      else assocFind A ((A, curlA) :: st.transformedModules) from rfl,
      if_neg hAB,
      show assocFind A ((A, curlA) :: st.transformedModules) =
        if A = A then some curlA else assocFind A st.transformedModules from rfl,
      if_pos rfl]
  have hrecB := transformModule_hit P ie se fuel A
    { st with
      processingModules := B :: A :: st.processingModules,
      transformedModules :=
        (B, curlB) :: (A, curlA) :: st.transformedModules,
      resolverLog := st.resolverLog ++ [depB.specifier] ++ [depA.specifier] }
    curlA hfindA2
  have hB : transformModule P ie se (fuel + 1 + 1) B
      { st with
        processingModules := A :: st.processingModules,
        transformedModules := (A, curlA) :: st.transformedModules,
        resolverLog := st.resolverLog ++ [depB.specifier] } =
      (.ok curlB,
       { st with
         processingModules := A :: st.processingModules,
         transformedModules :=
           (B, curlB) :: (A, curlA) :: st.transformedModules,
         resolverLog := st.resolverLog ++ [depB.specifier] ++ [depA.specifier],
         files := setKV st.files curlB
           (createOriginalUrlComment B ++
             replaceImports tcodeB (P.graphDeps tcodeB)
               (fun s =>
                 match assocFind s [(tsA, curlA)] with
                 | some cu => if cu.isEmpty then s else cu
                 | none => s)) }) := by
    rw [transformModule_slow P ie se (fuel + 1) B _ srcB hfB2 hcB2 hreadB h4B]
    rw [transformSlow_one_ok P ie se _ B srcB _ depA tsA tcodeB curlB A curlA _
      hdepsB hlocalA htsA htcB hcuB hrelA hresA hrecB]
    simp only [removeStr_cons_self]
  rw [transformModule_slow P ie se (fuel + 2) A st srcA hfA hcA hreadA h4A]
  rw [transformSlow_one_ok P ie se _ A srcA _ depB tsB tcodeA curlA B curlB _
    hdepsA hlocalB htsB htcA hcuA hrelB hresB hB]
  simp only [removeStr_cons_self]

/-- Sources of the C3 witness: two modules importing each other. -/
def c3srcA : Str := "import b from \"./b.ts\";\n".toList

def c3srcB : Str := "import a from \"./a.ts\";\n".toList

/-- deno-graph output for `c3srcA` (span of `"./b.ts"`). -/
def c3depB : Dependency :=
  { specifier := "./b.ts".toList,
    code := some { startLine := 0, startChar := 14, endLine := 0, endChar := 22 },
    type := none }

/-- deno-graph output for `c3srcB` (span of `"./a.ts"`). -/
def c3depA : Dependency :=
  { specifier := "./a.ts".toList,
    code := some { startLine := 0, startChar := 14, endLine := 0, endChar := 22 },
    type := none }

/-- Platform of the C3 witness. -/
def c3P : Platform :=
  { readModule := fun u =>
      if u = "file:///p/a.ts".toList then .ok c3srcA
      else if u = "file:///p/b.ts".toList then .ok c3srcB
      else .error "missing".toList,
    graphDeps := fun c =>
      if c = c3srcA then [c3depB]
      else if c = c3srcB then [c3depA]
      else [],
    resolveUrl := fun s _ =>
      if s = "./b.ts".toList then "file:///p/b.ts".toList
      else if s = "./a.ts".toList then "file:///p/a.ts".toList
      else s,
    parseUrl := fun s => s,
    cacheUrlOf := fun u _ => "c-".toList ++ u,
    fromFileUrl := fun s => s.drop 7,
    pathDirname := fun s => s,
    loadModule := fun _ => 0,
    selfUrl := "file:///imp.ts".toList }

/-- C3 witness: the mutual pair `a.ts`/`b.ts` terminates at fuel 3; each
written cache file references the other module's cache artifact, not its
source; and the two re-entry behaviours are exhibited at concrete states. -/
theorem C3_witness :
    (transformModule c3P [] [] 3 "file:///p/a.ts".toList initState).1 =
      .ok ("c-file:///p/a.ts".toList) ∧
    assocFind "c-file:///p/b.ts".toList
      (transformModule c3P [] [] 3 "file:///p/a.ts".toList initState).2.files =
      some (createOriginalUrlComment "file:///p/b.ts".toList ++
        "import a from \"c-file:///p/a.ts\";\n".toList) ∧
    assocFind "c-file:///p/a.ts".toList
      (transformModule c3P [] [] 3 "file:///p/a.ts".toList initState).2.files =
      some (createOriginalUrlComment "file:///p/a.ts".toList ++
        "import b from \"c-file:///p/b.ts\";\n".toList) ∧
    transformModule c3P [] [] 1 "file:///p/a.ts".toList
      { initState with transformedModules :=
          [("file:///p/a.ts".toList, "c-file:///p/a.ts".toList)] } =
      (.ok ("c-file:///p/a.ts".toList),
       { initState with transformedModules :=
          [("file:///p/a.ts".toList, "c-file:///p/a.ts".toList)] }) ∧
    transformModule c3P [] [] 1 "file:///p/a.ts".toList
      { initState with processingModules := ["file:///p/a.ts".toList] } =
      (.ok ("file:///p/a.ts".toList),
       { initState with processingModules := ["file:///p/a.ts".toList] }) := by
  have H := C3_cycle_termination c3P [] [] 0
    "file:///p/a.ts".toList "file:///p/b.ts".toList c3srcA c3srcB c3depB c3depA
    "./b.ts".toList "./a.ts".toList c3srcA c3srcB
    "c-file:///p/a.ts".toList "c-file:///p/b.ts".toList initState
    (by decide) rfl rfl rfl rfl rfl (by decide) rfl rfl rfl (by decide) rfl
    (by decide) rfl rfl (by decide) rfl rfl rfl (by decide) rfl (by decide) rfl
  refine ⟨?_, ?_, ?_, ?_, ?_⟩
  · rw [H.2.2]
  · rw [H.2.2]
    decide
  · rw [H.2.2]
    decide
  · exact H.1 0 _ _ _ (by decide)
  · exact H.2.1 0 _ _ (by decide) (by decide)

/-- The dependency loop never touches the memory cache of module objects,
provided the recursive transform does not. -/
theorem processDeps_cache (P : Platform) (parent : Str)
    (recFn : Str → EngineState → (Except Str Str) × EngineState)
    (hrec : ∀ u s, ((recFn u s).2).cache = s.cache) :
    ∀ (l : List Str) (st : EngineState) (acc : List (Str × Str)),
      ((processDeps P parent recFn l st acc).1).cache = st.cache := by
  intro l
  induction l with
  | nil => intro st acc; rfl
  | cons t rest ih =>
    intro st acc
    unfold processDeps
    by_cases h : (isRelativeOrFileUrl t || isHttpUrl t) = true
    · rw [if_pos h]
      rcases hr : recFn (if isRelativeOrFileUrl t = true
        then P.resolveUrl t parent else P.parseUrl t) st with ⟨r, st'⟩
      have h2 := hrec (if isRelativeOrFileUrl t = true
        then P.resolveUrl t parent else P.parseUrl t) st
      rw [hr] at h2
      simp only [hr]
      cases r with
      | ok c =>
        rw [ih st' _]
        exact h2
      | error e =>
        rw [ih _ _]
        exact h2
    · rw [if_neg h]
      exact ih st acc

/-- `transformSlow` never touches the memory cache, provided the recursive
transform does not. -/
theorem transformSlow_cache (P : Platform) (ie : List (Str × Str))
    (se : List (Str × List (Str × Str)))
    (recFn : Str → EngineState → (Except Str Str) × EngineState)
    (url code : Str) (st1 : EngineState)
    (hrec : ∀ u s, ((recFn u s).2).cache = s.cache) :
    ((transformSlow P ie se recFn url code st1).2).cache = st1.cache := by
  show ((processDeps P url recFn _ _ []).1).cache = st1.cache
  rw [processDeps_cache P url recFn hrec _ _ _]

/-- `#transformModule` never touches the memory cache of module objects. -/
theorem transformModule_cache (P : Platform) (ie : List (Str × Str))
    (se : List (Str × List (Str × Str))) :
    ∀ (fuel : Nat) (url : Str) (st : EngineState),
      ((transformModule P ie se fuel url st).2).cache = st.cache := by
  intro fuel
  induction fuel with
  | zero => intro url st; rfl
  | succ n ih =>
    intro url st
    cases hh : assocFind url st.transformedModules with
    | some c => rw [transformModule_hit P ie se n url st c hh]
    | none =>
      cases hp : containsStr st.processingModules url with
      | true => rw [transformModule_inProgress P ie se n url st hh hp]
      | false =>
        cases hr : P.readModule url with
        | error e => rw [transformModule_read_error P ie se n url st e hh hp hr]
        | ok code =>
          cases hfb : (!hasImports code && !hasImportMetaUrl code) with
          | true =>
            have hparts := hfb
            simp only [Bool.and_eq_true, Bool.not_eq_true'] at hparts
            rw [transformModule_fast P ie se n url st code hh hp hr
              hparts.1 hparts.2]
          | false =>
            rw [transformModule_slow P ie se n url st code hh hp hr hfb]
            exact transformSlow_cache P ie se _ url code _ (fun u s => ih u s)

/-- C9: the in-memory module cache makes `import()` idempotent.  (1) A
cache hit returns the stored module object with the state untouched (no
pipeline re-run); (2) a successful import stores the module under the
originally requested specifier string; (3) hence a second `import()` of
the same specifier returns the identical module object and leaves the
state unchanged, whatever fuel it is given; (4) entries are never evicted
by later imports; (5) a freshly constructed instance starts with an empty
cache of its own. -/
theorem C9_import_idempotent (P : Platform) (ie : List (Str × Str))
    (se : List (Str × List (Str × Str))) :
    (∀ (fuel : Nat) (spec : Str) (st : EngineState) (m : Nat),
      lookupMod spec st.cache = some m →
      importSpec P ie se fuel spec st = (.ok m, st)) ∧
    (∀ (fuel : Nat) (spec : Str) (st st' : EngineState) (m : Nat),
      importSpec P ie se fuel spec st = (.ok m, st') →
      lookupMod spec st'.cache = some m) ∧
    (∀ (fuel fuel' : Nat) (spec : Str) (st st' : EngineState) (m : Nat),
      importSpec P ie se fuel spec st = (.ok m, st') →
      importSpec P ie se fuel' spec st' = (.ok m, st')) ∧
    (∀ (fuel : Nat) (spec : Str) (st : EngineState) (r : Except Str Nat)
        (st' : EngineState),
      importSpec P ie se fuel spec st = (r, st') →
      ∀ (k : Str) (v : Nat), lookupMod k st.cache = some v →
        lookupMod k st'.cache = some v) ∧
    (initState.cache = [] ∧ ∀ spec : Str, lookupMod spec initState.cache = none) := by
  have hit : ∀ (fuel : Nat) (spec : Str) (st : EngineState) (m : Nat),
      lookupMod spec st.cache = some m →
      importSpec P ie se fuel spec st = (.ok m, st) := by
    intro fuel spec st m h
    unfold importSpec
    rw [h]
  have store : ∀ (fuel : Nat) (spec : Str) (st st' : EngineState) (m : Nat),
      importSpec P ie se fuel spec st = (.ok m, st') →
      lookupMod spec st'.cache = some m := by
    intro fuel spec st st' m h
    unfold importSpec at h
    cases hc : lookupMod spec st.cache with
    | some m' =>
      simp only [hc] at h
      injection h with h1 h2
      injection h1 with h1
      rw [← h2, hc, h1]
    | none =>
      simp only [hc] at h
      rcases ht : transformModule P ie se fuel
        (P.resolveUrl spec P.selfUrl) st with ⟨r, st''⟩
      rw [ht] at h
      cases r with
      | ok turl =>
        simp only [] at h
        injection h with h1 h2
        injection h1 with h1
        rw [← h2]
        show (if spec = spec then some (P.loadModule turl) else
          lookupMod spec st''.cache) = some m
        rw [if_pos rfl, h1]
      | error e => simp only [] at h; exact absurd h (by simp)
  refine ⟨hit, store, ?_, ?_, rfl, fun spec => rfl⟩
  · intro fuel fuel' spec st st' m h
    exact hit fuel' spec st' m (store fuel spec st st' m h)
  · intro fuel spec st r st' h k v hk
    unfold importSpec at h
    cases hc : lookupMod spec st.cache with
    | some m' =>
      simp only [hc] at h
      injection h with h1 h2
      rw [← h2]
      exact hk
    | none =>
      simp only [hc] at h
      rcases ht : transformModule P ie se fuel
        (P.resolveUrl spec P.selfUrl) st with ⟨rr, st''⟩
      have hcc := transformModule_cache P ie se fuel
        (P.resolveUrl spec P.selfUrl) st
      rw [ht] at h hcc
      cases rr with
      | ok turl =>
        simp only [] at h hcc
        injection h with h1 h2
        rw [← h2]
        show (if spec = k then some (P.loadModule turl) else
          lookupMod k st''.cache) = some v
        have hne : ¬(spec = k) := by
          intro hh
          rw [← hh] at hk
          rw [hk] at hc
          exact Option.noConfusion hc
        rw [if_neg hne, hcc, hk]
      | error e =>
        simp only [] at h hcc
        injection h with h1 h2
        rw [← h2, hcc]
        exact hk

/-- Platform of the C9 witness: one importable module with no imports. -/
def c9P : Platform :=
  { readModule := fun u => if u = "file:///m.ts".toList
      then .ok "const x = 1;\n".toList else .error "missing".toList,
    graphDeps := fun _ => [],
    resolveUrl := fun _ _ => "file:///m.ts".toList,
    parseUrl := fun s => s,
    cacheUrlOf := fun u _ => "c-".toList ++ u,
    fromFileUrl := fun s => s.drop 7,
    pathDirname := fun s => s,
    loadModule := fun _ => 42,
    selfUrl := "file:///imp.ts".toList }

/-- C9 witness: the first import loads and stores module `42` under the
requested specifier; a second import (with different fuel) returns the
identical module object and leaves the state untouched. -/
theorem C9_witness :
    (importSpec c9P [] [] 1 "./m.ts".toList initState).1 = .ok 42 ∧
    lookupMod "./m.ts".toList
      (importSpec c9P [] [] 1 "./m.ts".toList initState).2.cache = some 42 ∧
    importSpec c9P [] [] 5 "./m.ts".toList
      (importSpec c9P [] [] 1 "./m.ts".toList initState).2 =
      (.ok 42, (importSpec c9P [] [] 1 "./m.ts".toList initState).2) := by
  obtain ⟨hit, store, idem, mono, hfresh⟩ := C9_import_idempotent c9P [] []
  have h1 : importSpec c9P [] [] 1 "./m.ts".toList initState =
      (.ok 42,
       { cache := [("./m.ts".toList, 42)],
         transformedModules :=
           [("file:///m.ts".toList, "c-file:///m.ts".toList)],
         processingModules := [],
         files := [("c-file:///m.ts".toList, "const x = 1;\n".toList)],
         warnings := [],
         resolverLog := [] }) := rfl
  refine ⟨?_, ?_, ?_⟩
  · rw [h1]
  · exact store 1 "./m.ts".toList initState _ 42 h1
  · rw [h1]
    exact idem 1 5 "./m.ts".toList initState _ 42 h1

/-- C8 (amended): when BOTH cheap matchers are negative — no import/export
statement syntax and no `import.meta` reference — the fast path caches the
module byte-identical to the original, registers its cache URL, and leaves
everything else, in particular the specifier-resolver invocation log,
untouched.  (The original claim, keyed on the import/export matcher alone,
is refuted by `C8_counterexample`.) -/
theorem C8_fast_path_no_resolver (P : Platform) (ie : List (Str × Str))
    (se : List (Str × List (Str × Str))) (fuel : Nat) (url : Str)
    (st : EngineState) (code : Str)
    (h1 : assocFind url st.transformedModules = none)
    (h2 : containsStr st.processingModules url = false)
    (h3 : P.readModule url = .ok code)
    (h4 : hasImports code = false)
    (h5 : hasImportMetaUrl code = false) :
    transformModule P ie se (fuel + 1) url st =
      (.ok (P.cacheUrlOf url code),
       { st with
         files := setKV st.files (P.cacheUrlOf url code) code,
         transformedModules :=
           (url, P.cacheUrlOf url code) :: st.transformedModules }) ∧
    ((transformModule P ie se (fuel + 1) url st).2).resolverLog =
      st.resolverLog ∧
    assocFind (P.cacheUrlOf url code)
      ((transformModule P ie se (fuel + 1) url st).2).files = some code := by
  have hf := transformModule_fast P ie se fuel url st code h1 h2 h3 h4 h5
  refine ⟨hf, ?_, ?_⟩
  · rw [hf]
  · rw [hf]
    exact assocFind_setKV_self st.files _ code

/-- Source of the C8 counterexample: no import/export statement syntax (the
cheap matcher is negative), but an `import.meta.url` reference and a
dynamic `import()` dependency. -/
def c8src : Str :=
  "const u = import.meta.url;\nconst m = await import(\"./dep.ts\");\n".toList

/-- The dynamic-import dependency deno-graph reports for `c8src` (span of
`"./dep.ts"` on line 1). -/
def c8dep : Dependency :=
  { specifier := "./dep.ts".toList,
    code := some { startLine := 1, startChar := 23, endLine := 1, endChar := 33 },
    type := none }

/-- Platform of the C8 counterexample. -/
def c8P : Platform :=
  { readModule := fun u =>
      if u = "file:///a/main.ts".toList then .ok c8src
      else if u = "file:///a/dep.ts".toList then .ok "const y = 2;\n".toList
      else .error "missing".toList,
    graphDeps := fun _ => [c8dep],
    resolveUrl := fun s _ => if s = "./dep.ts".toList
      then "file:///a/dep.ts".toList else s,
    parseUrl := fun s => s,
    cacheUrlOf := fun u _ => "c-".toList ++ u,
    fromFileUrl := fun s => s.drop 7,
    pathDirname := fun s => s,
    loadModule := fun _ => 0,
    selfUrl := "file:///imp.ts".toList }

/-- C8 counterexample (to the claim as stated): this module's source is
negative for the import/export matcher, yet the transformation does NOT
take the fast path — the `import.meta` matcher sends it down the slow
path, where the parser reports the dynamic import and the specifier
resolver IS invoked on `./dep.ts`; the cached content is not byte-identical
either. -/
theorem C8_counterexample :
    hasImports c8src = false ∧
    hasImportMetaUrl c8src = true ∧
    (transformModule c8P [] [] 2 "file:///a/main.ts".toList initState).2.resolverLog =
      ["./dep.ts".toList] := by
  refine ⟨by decide, by decide, ?_⟩
  decide

/-- Platform of the C8 witness: a single module with neither import/export
syntax nor `import.meta` references. -/
def c8wP : Platform :=
  { readModule := fun u => if u = "file:///w/plain.ts".toList
      then .ok "const z = 3;\n".toList else .error "missing".toList,
    graphDeps := fun _ => [],
    resolveUrl := fun s _ => s,
    parseUrl := fun s => s,
    cacheUrlOf := fun u _ => "c-".toList ++ u,
    fromFileUrl := fun s => s.drop 7,
    pathDirname := fun s => s,
    loadModule := fun _ => 7,
    selfUrl := "file:///imp.ts".toList }

/-- C8 witness: the fast path at a concrete matcher-negative module caches
the source byte-identical and leaves the resolver log empty. -/
theorem C8_witness :
    transformModule c8wP [] [] 1 "file:///w/plain.ts".toList initState =
      (.ok ("c-file:///w/plain.ts".toList),
       { initState with
         files := setKV initState.files ("c-file:///w/plain.ts".toList)
           "const z = 3;\n".toList,
         transformedModules :=
           [("file:///w/plain.ts".toList, "c-file:///w/plain.ts".toList)] }) ∧
    (transformModule c8wP [] [] 1 "file:///w/plain.ts".toList initState).2.resolverLog = [] ∧
    assocFind ("c-file:///w/plain.ts".toList)
      (transformModule c8wP [] [] 1 "file:///w/plain.ts".toList initState).2.files =
      some ("const z = 3;\n".toList) := by
  exact C8_fast_path_no_resolver c8wP [] [] 0 "file:///w/plain.ts".toList
    initState "const z = 3;\n".toList rfl rfl rfl (by decide) (by decide)
